import Mathlib

/-!
Verification development for the operator dispatch registry implemented in
aten/src/ATen/core/dispatch/Dispatcher.cpp. The dispatcher state is embedded
shallowly: the operator list, the name lookup table, the backend fallback
table, the fallthrough bitset and the listener list become explicit fields of
a state record, and each member function of the Dispatcher class becomes a
state-passing Lean function. TORCH_CHECK and TORCH_INTERNAL_ASSERT failures
are modelled as an Except error result. Listener notifications are modelled
as an event list; each emitted event is paired with the dispatcher state at
the moment the listeners are called, which makes the notification ordering
(after insertion, before erasure) statable.

Collaborator classes that are not part of the source excerpt (OperatorEntry,
FunctionSchema, KernelFunction, DispatchTable, DispatchKeySet) are modelled
from the specification; each such definition carries a doc comment saying so.
-/

namespace PytorchDispatch

/-- Operator name: an immutable pair of base name and overload name, compared
by value. Used as the key of the lookup table. -/
structure OperatorName where
  name : String
  overload_name : String
deriving DecidableEq, Repr

/-- Alias analysis kind carried by a schema. One designated value
(defaultKind) means unspecified; the others model the concrete kinds. -/
inductive AliasAnalysisKind where
  | defaultKind
  | fromSchema
  | pureFunction
  | conservative
deriving DecidableEq, Repr

/-- Whether a kind is the designated default kind. -/
def AliasAnalysisKind.isDefault : AliasAnalysisKind → Bool
  | .defaultKind => true
  | _ => false

/-- Modelled from the spec: FunctionSchema (the Signature collaborator, not in
the source excerpt) is an immutable structural description of the calling
contract plus an alias analysis kind tag. The structural content is opaque
here (field core). -/
structure FunctionSchema where
  operator_name : OperatorName
  core : Nat
  aliasKind : AliasAnalysisKind
deriving DecidableEq, Repr

/-- Modelled from the spec: the schema comparison used by the dispatcher
(operator== on FunctionSchema) compares the structural part; the alias
analysis kind is resolved separately by findOrRegisterWithSchema_. -/
def FunctionSchema.structEq (a b : FunctionSchema) : Bool :=
  decide (a.operator_name = b.operator_name) && decide (a.core = b.core)

/-- The isDefaultAliasAnalysisKind accessor of FunctionSchema. -/
def FunctionSchema.isDefaultAliasAnalysisKind (s : FunctionSchema) : Bool :=
  s.aliasKind.isDefault

/-- Modelled from the spec: a kernel is an opaque callable value (field code)
carrying an is-fallthrough property. This core never calls kernels. -/
structure KernelFunction where
  code : Nat
  fallsThrough : Bool
deriving DecidableEq, Repr

/-- The isFallthrough accessor of KernelFunction. -/
def KernelFunction.isFallthrough (k : KernelFunction) : Bool :=
  k.fallsThrough

/-- Backend tags: a small closed set, modelled as Fin 64 mirroring the 64-bit
DispatchKeySet representation. -/
abbrev DispatchKey := Fin 64

/-- The designated undefined (no tag) value, tag number 0. -/
def DispatchKey.Undefined : DispatchKey := ⟨0, by decide⟩

/-- Modelled from the spec: the backend tag bitset, as a finite set of tags
with FULL, add, remove and membership operations. -/
abbrev DispatchKeySet := Finset DispatchKey

/-- The full tag set. -/
def DispatchKeySet.FULL : DispatchKeySet := Finset.univ

/-- Remove a tag from the set. -/
def DispatchKeySet.remove (s : DispatchKeySet) (k : DispatchKey) : DispatchKeySet :=
  s.erase k

/-- Add a tag to the set. -/
def DispatchKeySet.add (s : DispatchKeySet) (k : DispatchKey) : DispatchKeySet :=
  insert k s

/-- Membership test of the tag set. -/
def DispatchKeySet.has (s : DispatchKeySet) (k : DispatchKey) : Bool :=
  decide (k ∈ s)

/-- A stable reference to an operator entry. Entries are never moved once
created, only erased; the handle stores the stable identity of the entry
(modelling the stored list iterator). -/
structure OperatorHandle where
  entryId : Nat
deriving DecidableEq, Repr

/-- The registry errors. TORCH_CHECK configuration errors and internal
invariant assertion failures are distinguished by constructor. -/
inductive DispatchError where
  | schemaMismatch (oldSchema newSchema : FunctionSchema)
  | aliasAnalysisKindMismatch (oldKind newKind : AliasAnalysisKind)
  | duplicateFallback (k : DispatchKey)
  | notFoundInSchemaLookup (n : OperatorName)
  | noTensorArguments (opName : OperatorName) (available : List DispatchKey)
  | noKernelForBackend (opName : OperatorName) (k : DispatchKey) (available : List DispatchKey)
  | internalAssertFailure
deriving DecidableEq, Repr

/-- The two listener notification events. -/
inductive RegEvent where
  | registered (h : OperatorHandle)
  | deregistered (h : OperatorHandle)
deriving DecidableEq, Repr

/-- Modelled from the spec: OperatorEntry (not in the source excerpt) holds
the operator name, the current signature (absent until the first definition
registration fills it in lazily), and a kernel table with stable slot
tokens. -/
structure OperatorEntry where
  opName : OperatorName
  schema : Option FunctionSchema
  kernels : List (Nat × Option DispatchKey × KernelFunction)
  nextKernelToken : Nat
deriving DecidableEq, Repr

/-- Modelled from the spec: registerKernel appends a kernel under a fresh
slot token and returns the token. -/
def OperatorEntry.registerKernel (e : OperatorEntry) (key : Option DispatchKey)
    (kf : KernelFunction) : OperatorEntry × Nat :=
  ({ e with kernels := e.kernels ++ [(e.nextKernelToken, key, kf)],
            nextKernelToken := e.nextKernelToken + 1 },
   e.nextKernelToken)

/-- Modelled from the spec: deregisterKernel removes the slot registered
under the given token and backend tag. -/
def OperatorEntry.deregisterKernel (e : OperatorEntry) (key : Option DispatchKey)
    (token : Nat) : OperatorEntry :=
  { e with kernels := e.kernels.filter (fun kr => decide (¬ (kr.1 = token ∧ kr.2.1 = key))) }

/-- Modelled from the spec: updateSchemaAliasAnalysis replaces the alias
analysis kind of the stored signature. -/
def OperatorEntry.updateSchemaAliasAnalysis (e : OperatorEntry)
    (k : AliasAnalysisKind) : OperatorEntry :=
  { e with schema := e.schema.map (fun s => { s with aliasKind := k }) }

/-- An element of the operator list: the entry plus the strong refcount
(refcount) and the weak refcount, and the stable identity id of the list
node (modelling iterator stability of the std list). -/
structure OperatorDef where
  id : Nat
  op : OperatorEntry
  refcount : Nat
  weak_refcount : Nat
deriving DecidableEq, Repr

/-- Modelled from the spec: the slice of DispatchTable read by reportError,
namely its operator name and the enumeration of currently available
backends (listAllDispatchKeys). -/
structure DispatchTable where
  operatorName : OperatorName
  listAllDispatchKeys : List DispatchKey
deriving DecidableEq, Repr

/-- The dispatcher state: the operator list, the name lookup table (name to
entry id), the backend fallback kernel table, the fallthrough bitset, the
listener list (listeners as opaque numbers) and a counter supplying fresh
entry identities. -/
structure Dispatcher where
  operators : List OperatorDef
  operatorLookupTable : List (OperatorName × Nat)
  backendFallbackKernels : List (DispatchKey × KernelFunction)
  backendsWithoutFallthrough : DispatchKeySet
  listeners : List Nat
  nextEntryId : Nat
deriving DecidableEq

/-- The freshly constructed dispatcher: everything empty, the fallthrough
bitset initialized to FULL. -/
def Dispatcher.init : Dispatcher :=
  { operators := [], operatorLookupTable := [], backendFallbackKernels := [],
    backendsWithoutFallthrough := DispatchKeySet.FULL, listeners := [],
    nextEntryId := 0 }

/-- findSchema: read the lookup table; not found gives none. -/
def Dispatcher.findSchema (s : Dispatcher) (n : OperatorName) : Option OperatorHandle :=
  (s.operatorLookupTable.find? (fun p => decide (p.1 = n))).map (fun p => { entryId := p.2 })

/-- findSchemaOrThrow: findSchema followed by optional value extraction; an
absent name raises an error. -/
def Dispatcher.findSchemaOrThrow (s : Dispatcher) (n overload : String) :
    Except DispatchError OperatorHandle :=
  match s.findSchema { name := n, overload_name := overload } with
  | some h => .ok h
  | none => .error (.notFoundInSchemaLookup { name := n, overload_name := overload })

/-- Resolve a handle to the list node it references. -/
def Dispatcher.findEntry (s : Dispatcher) (id : Nat) : Option OperatorDef :=
  s.operators.find? (fun d => decide (d.id = id))

/-- Apply a function to the list node with the given identity, in place. -/
def Dispatcher.updateEntry (s : Dispatcher) (id : Nat) (f : OperatorDef → OperatorDef) :
    Dispatcher :=
  { s with operators := s.operators.map (fun d => if d.id = id then f d else d) }

/-- Erase the node with the given identity from the operator list and the
given name from the lookup table (the erase calls at the weak zero point). -/
def Dispatcher.eraseEntry (s : Dispatcher) (id : Nat) (n : OperatorName) : Dispatcher :=
  { s with operators := s.operators.filter (fun d => decide (d.id ≠ id)),
           operatorLookupTable := s.operatorLookupTable.filter (fun p => decide (p.1 ≠ n)) }

/-- A freshly appended node carrying a signature (the emplace_back of the
find or register with schema path). -/
def freshSchemaEntry (schema : FunctionSchema) (id : Nat) : OperatorDef :=
  { id := id,
    op := { opName := schema.operator_name, schema := some schema,
            kernels := [], nextKernelToken := 0 },
    refcount := 0, weak_refcount := 0 }

/-- A freshly appended node carrying only a name (the emplace_back of the
find or register with name path). -/
def freshNameEntry (n : OperatorName) (id : Nat) : OperatorDef :=
  { id := id,
    op := { opName := n, schema := none, kernels := [], nextKernelToken := 0 },
    refcount := 0, weak_refcount := 0 }

/-- findOrRegisterWithSchema_: look up by the schema name; if found, check
structural schema equality (TORCH_CHECK on mismatch) and resolve the alias
analysis kinds, else append a fresh entry to the operator list and insert it
into the lookup table. The branch for an entry that has no signature yet is
modelled from the spec (the signature starts absent and is filled in lazily
by the first definition registration). -/
def Dispatcher.findOrRegisterWithSchema (s : Dispatcher) (schema : FunctionSchema) :
    Except DispatchError (Dispatcher × OperatorHandle) :=
  match s.findSchema schema.operator_name with
  | some found =>
    match s.findEntry found.entryId with
    | none => .error .internalAssertFailure
    | some d =>
      match d.op.schema with
      | none =>
        .ok (s.updateEntry found.entryId
              (fun e => { e with op := { e.op with schema := some schema } }), found)
      | some oldSchema =>
        if FunctionSchema.structEq oldSchema schema = false then
          .error (.schemaMismatch oldSchema schema)
        else if schema.isDefaultAliasAnalysisKind then
          .ok (s, found)
        else if oldSchema.isDefaultAliasAnalysisKind then
          .ok (s.updateEntry found.entryId
                (fun e => { e with op := e.op.updateSchemaAliasAnalysis schema.aliasKind }),
               found)
        else if oldSchema.aliasKind = schema.aliasKind then
          .ok (s, found)
        else
          .error (.aliasAnalysisKindMismatch oldSchema.aliasKind schema.aliasKind)
  | none =>
    .ok ({ s with operators := s.operators ++ [freshSchemaEntry schema s.nextEntryId],
                  operatorLookupTable :=
                    s.operatorLookupTable ++ [(schema.operator_name, s.nextEntryId)],
                  nextEntryId := s.nextEntryId + 1 },
         { entryId := s.nextEntryId })

/-- findOrRegisterWithName_: look up by name only; if absent, append a fresh
entry with no signature. Never fails. -/
def Dispatcher.findOrRegisterWithName (s : Dispatcher) (op_name : OperatorName) :
    Dispatcher × OperatorHandle :=
  match s.findSchema op_name with
  | some found => (s, found)
  | none =>
    ({ s with operators := s.operators ++ [freshNameEntry op_name s.nextEntryId],
              operatorLookupTable := s.operatorLookupTable ++ [(op_name, s.nextEntryId)],
              nextEntryId := s.nextEntryId + 1 },
     { entryId := s.nextEntryId })

/-- The refcount bump applied by registerDef after find or register. -/
def bumpBoth (d : OperatorDef) : OperatorDef :=
  { d with refcount := d.refcount + 1, weak_refcount := d.weak_refcount + 1 }

/-- The refcount decrement applied by deregisterDef_. -/
def dropBoth (d : OperatorDef) : OperatorDef :=
  { d with refcount := d.refcount - 1, weak_refcount := d.weak_refcount - 1 }

/-- registerDef: find or create the entry for the schema, increment both
refcounts, and notify listeners of the registration exactly when the strong
refcount became 1. The emitted event is paired with the state at which the
listeners run, which is the final state (the entry is already inserted and
its refcounts already updated when callOnOperatorRegistered runs). -/
def Dispatcher.registerDef (s : Dispatcher) (schema : FunctionSchema) :
    Except DispatchError (Dispatcher × OperatorHandle × List (RegEvent × Dispatcher)) :=
  match s.findOrRegisterWithSchema schema with
  | .error e => .error e
  | .ok (s1, op) =>
    let s2 := s1.updateEntry op.entryId bumpBoth
    match s2.findEntry op.entryId with
    | none => .error .internalAssertFailure
    | some d =>
      .ok (s2, op, if d.refcount = 1 then [(RegEvent.registered op, s2)] else [])

/-- deregisterDef_: assert the handle matches the name and both refcounts are
positive, decrement both, notify listeners of the deregistration exactly when
the strong refcount reached 0 (the event is paired with the decremented but
not yet erased state), and erase the entry from the operator list and the
lookup table exactly when the weak refcount reached 0. -/
def Dispatcher.deregisterDef (s : Dispatcher) (op : OperatorHandle) (op_name : OperatorName) :
    Except DispatchError (Dispatcher × List (RegEvent × Dispatcher)) :=
  match s.findEntry op.entryId with
  | none => .error .internalAssertFailure
  | some d =>
    if d.op.opName ≠ op_name then .error .internalAssertFailure
    else if d.refcount = 0 then .error .internalAssertFailure
    else if d.weak_refcount = 0 then .error .internalAssertFailure
    else
      let s1 := s.updateEntry op.entryId dropBoth
      let evs := if d.refcount - 1 = 0 then [(RegEvent.deregistered op, s1)] else []
      if d.weak_refcount - 1 = 0 then
        .ok (s1.eraseEntry op.entryId op_name, evs)
      else
        .ok (s1, evs)

/-- registerImpl: find or create the entry by name only, register the kernel
against the entry table, and increment only the weak refcount. No listener
event is ever emitted by this path. Returns the kernel slot token needed by
the release action. -/
def Dispatcher.registerImpl (s : Dispatcher) (op_name : OperatorName)
    (dispatch_key : Option DispatchKey) (kernel : KernelFunction) :
    Except DispatchError (Dispatcher × OperatorHandle × Nat × List (RegEvent × Dispatcher)) :=
  match s.findOrRegisterWithName op_name with
  | (s1, op) =>
    match s1.findEntry op.entryId with
    | none => .error .internalAssertFailure
    | some d =>
      let s2 := s1.updateEntry op.entryId
        (fun x =>
          { x with
              op := (d.op.registerKernel dispatch_key kernel).1,
              weak_refcount := x.weak_refcount + 1 })
      .ok (s2, op, (d.op.registerKernel dispatch_key kernel).2, [])

/-- deregisterImpl_: assert the handle matches the name and the weak refcount
is positive, decrement it, and erase the entry from the operator list and the
lookup table exactly when it reached 0. -/
def Dispatcher.deregisterImpl (s : Dispatcher) (op : OperatorHandle) (op_name : OperatorName) :
    Except DispatchError Dispatcher :=
  match s.findEntry op.entryId with
  | none => .error .internalAssertFailure
  | some d =>
    if d.op.opName ≠ op_name then .error .internalAssertFailure
    else if d.weak_refcount = 0 then .error .internalAssertFailure
    else
      let s1 := s.updateEntry op.entryId
        (fun e => { e with weak_refcount := e.weak_refcount - 1 })
      if d.weak_refcount - 1 = 0 then
        .ok (s1.eraseEntry op.entryId op_name)
      else
        .ok s1

/-- The release action of an implementation registration handle: first remove
the specific kernel slot from the entry, then run deregisterImpl_. -/
def Dispatcher.disposeImplHandle (s : Dispatcher) (op : OperatorHandle)
    (op_name : OperatorName) (dispatch_key : Option DispatchKey) (kernel_handle : Nat) :
    Except DispatchError Dispatcher :=
  match s.findEntry op.entryId with
  | none => .error .internalAssertFailure
  | some _ =>
    let s1 := s.updateEntry op.entryId
      (fun x => { x with op := x.op.deregisterKernel dispatch_key kernel_handle })
    s1.deregisterImpl op op_name

/-- registerFallback: fail with the duplicate fallback error when a fallback
kernel is already installed for the tag; otherwise install the kernel and,
when the kernel is a fallthrough, remove the tag from the
backendsWithoutFallthrough bitset. -/
def Dispatcher.registerFallback (s : Dispatcher) (dispatchKey : DispatchKey)
    (kernel : KernelFunction) : Except DispatchError Dispatcher :=
  if (s.backendFallbackKernels.find? (fun p => decide (p.1 = dispatchKey))).isSome then
    .error (.duplicateFallback dispatchKey)
  else
    let s1 := { s with backendFallbackKernels := s.backendFallbackKernels ++ [(dispatchKey, kernel)] }
    if kernel.isFallthrough then
      .ok { s1 with backendsWithoutFallthrough := s1.backendsWithoutFallthrough.remove dispatchKey }
    else
      .ok s1

/-- deregisterFallback_: remove the fallback kernel for the tag (internal
assertion failure when none is present) and add the tag back to the
backendsWithoutFallthrough bitset. -/
def Dispatcher.deregisterFallback (s : Dispatcher) (dispatchKey : DispatchKey) :
    Except DispatchError Dispatcher :=
  let existed := (s.backendFallbackKernels.find? (fun p => decide (p.1 = dispatchKey))).isSome
  let s1 := { s with
    backendFallbackKernels := s.backendFallbackKernels.filter (fun p => decide (p.1 ≠ dispatchKey)),
    backendsWithoutFallthrough := s.backendsWithoutFallthrough.add dispatchKey }
  if existed then .ok s1 else .error .internalAssertFailure

/-- addRegistrationListener: first replay the on registered event to the new
listener for every operator in entry list order, then append the listener to
the list that receives future events. The second component is the list of
handles replayed to the new listener, in order. -/
def Dispatcher.addRegistrationListener (s : Dispatcher) (listener : Nat) :
    Dispatcher × List OperatorHandle :=
  ({ s with listeners := s.listeners ++ [listener] },
   s.operators.map (fun d => { entryId := d.id }))

/-- reportError: produce the terminating dispatch failure, distinguishing the
undefined tag case from a concrete tag with no satisfying kernel; both cases
carry the enumeration of the currently available backends. -/
def Dispatcher.reportError (dispatchTable : DispatchTable) (dispatchKey : DispatchKey) :
    DispatchError :=
  if dispatchKey = DispatchKey.Undefined then
    .noTensorArguments dispatchTable.operatorName dispatchTable.listAllDispatchKeys
  else
    .noKernelForBackend dispatchTable.operatorName dispatchKey dispatchTable.listAllDispatchKeys

/-- Which of the two reportError cases an error is. -/
def DispatchError.isNoTensorArguments : DispatchError → Bool
  | .noTensorArguments _ _ => true
  | _ => false

/-- The backend enumeration carried by a dispatch failure, when present. -/
def DispatchError.availableBackends : DispatchError → Option (List DispatchKey)
  | .noTensorArguments _ avail => some avail
  | .noKernelForBackend _ _ avail => some avail
  | _ => none

/-! ## Registration handles and reachable registry states

A scoped registration handle runs its release action exactly once. The world
state pairs the dispatcher with the multiset of currently live handles (each
carrying the data its release closure captured) so that refcount claims can
be stated against the number of live handles. Commands model the client
facing API: register a definition, register an implementation, dispose a
live handle, register a fallback, add a listener. -/

/-- The data captured by the release closure of a live registration handle:
a definition handle captured (op, op_name), an implementation handle also
captured the dispatch key and the kernel slot token. -/
inductive HandleKind where
  | defKind
  | implKind (key : Option DispatchKey) (token : Nat)
deriving DecidableEq, Repr

/-- A currently live registration handle. -/
structure LiveHandle where
  hid : Nat
  entryId : Nat
  opName : OperatorName
  kind : HandleKind
deriving DecidableEq, Repr

/-- Whether the handle is a definition registration handle. -/
def LiveHandle.isDef (lh : LiveHandle) : Bool :=
  match lh.kind with
  | .defKind => true
  | .implKind _ _ => false

/-- The world: the dispatcher plus the live handles. -/
structure World where
  disp : Dispatcher
  live : List LiveHandle
  nextHid : Nat
deriving DecidableEq

/-- The client facing commands. -/
inductive Cmd where
  | regDef (schema : FunctionSchema)
  | regImpl (n : OperatorName) (key : Option DispatchKey) (kf : KernelFunction)
  | dispose (hid : Nat)
  | regFallback (k : DispatchKey) (kf : KernelFunction)
  | addListener (l : Nat)
deriving DecidableEq, Repr

/-- The initial world: fresh dispatcher, no live handles. -/
def World.init : World := { disp := Dispatcher.init, live := [], nextHid := 0 }

/-- Run the release action of a live handle: deregisterDef_ for a definition
handle, kernel removal followed by deregisterImpl_ for an implementation
handle. The handle stops being live. -/
def disposeLive (w : World) (lh : LiveHandle) : World :=
  let res : Except DispatchError Dispatcher :=
    match lh.kind with
    | .defKind => (w.disp.deregisterDef { entryId := lh.entryId } lh.opName).map (fun r => r.1)
    | .implKind key token =>
        w.disp.disposeImplHandle { entryId := lh.entryId } lh.opName key token
  match res with
  | .error _ => w
  | .ok s => { w with disp := s, live := w.live.filter (fun x => decide (x.hid ≠ lh.hid)) }

/-- One client step. A failed registration leaves the world unchanged (the
error propagates before any refcount is touched); disposing an identifier
that is not a live handle is a no-op (a handle releases at most once). -/
def stepCmd (w : World) (c : Cmd) : World :=
  match c with
  | .regDef schema =>
    match w.disp.registerDef schema with
    | .error _ => w
    | .ok (s, h, _) =>
      { disp := s,
        live := w.live ++ [{ hid := w.nextHid, entryId := h.entryId,
                             opName := schema.operator_name, kind := .defKind }],
        nextHid := w.nextHid + 1 }
  | .regImpl n key kf =>
    match w.disp.registerImpl n key kf with
    | .error _ => w
    | .ok (s, h, token, _) =>
      { disp := s,
        live := w.live ++ [{ hid := w.nextHid, entryId := h.entryId,
                             opName := n, kind := .implKind key token }],
        nextHid := w.nextHid + 1 }
  | .dispose hid =>
    match w.live.find? (fun lh => decide (lh.hid = hid)) with
    | none => w
    | some lh => disposeLive w lh
  | .regFallback k kf =>
    match w.disp.registerFallback k kf with
    | .error _ => w
    | .ok s => { w with disp := s }
  | .addListener l =>
    { w with disp := (w.disp.addRegistrationListener l).1 }

/-- The reachable registry states: run a command list from the initial
world. -/
def runCmds (cs : List Cmd) : World := cs.foldl stepCmd World.init

/-- Number of live definition registration handles referencing the entry. -/
def defCount (live : List LiveHandle) (id : Nat) : Nat :=
  (live.filter (fun lh => decide (lh.entryId = id) && lh.isDef)).length

/-- Number of live implementation registration handles referencing the
entry. -/
def implCount (live : List LiveHandle) (id : Nat) : Nat :=
  (live.filter (fun lh => decide (lh.entryId = id) && !lh.isDef)).length

/-- Number of live handles of either kind referencing the entry. -/
def handleCount (live : List LiveHandle) (id : Nat) : Nat :=
  (live.filter (fun lh => decide (lh.entryId = id))).length

/-! ## Counting helper lemmas -/

/-- The key of an operator list node in the lookup table. -/
def keyOf (d : OperatorDef) : OperatorName × Nat := (d.op.opName, d.id)

lemma length_filter_remove (p : LiveHandle → Bool) :
    ∀ (live : List LiveHandle) (lh : LiveHandle), lh ∈ live →
      (live.map LiveHandle.hid).Nodup →
      ((live.filter (fun x => decide (x.hid ≠ lh.hid))).filter p).length
        + (if p lh then 1 else 0) = (live.filter p).length := by
  intro live
  induction live with
  | nil => intro lh h; cases h
  | cons a as ih =>
    intro lh hmem hnd
    simp only [List.map_cons, List.nodup_cons, List.mem_map] at hnd
    obtain ⟨hna, hnd⟩ := hnd
    rcases List.mem_cons.mp hmem with rfl | hmem
    · have hfix : as.filter (fun x => decide (x.hid ≠ lh.hid)) = as := by
        apply List.filter_eq_self.mpr
        intro x hx
        simp only [decide_eq_true_eq]
        intro hc
        exact hna ⟨x, hx, hc⟩
      have h1 : (lh :: as).filter (fun x => decide (x.hid ≠ lh.hid)) = as := by
        rw [List.filter_cons_of_neg, hfix]
        simp
      rw [h1, List.filter_cons]
      by_cases hp : p lh = true
      · rw [if_pos hp, if_pos hp]
        simp
      · rw [if_neg hp, if_neg hp]
        simp
    · have hne : a.hid ≠ lh.hid := by
        intro hc
        exact hna ⟨lh, hmem, hc.symm⟩
      have h2 : (a :: as).filter (fun x => decide (x.hid ≠ lh.hid))
          = a :: as.filter (fun x => decide (x.hid ≠ lh.hid)) := by
        rw [List.filter_cons_of_pos]
        simpa using hne
      have hih := ih lh hmem hnd
      rw [h2, List.filter_cons, List.filter_cons]
      by_cases hp : p a = true
      · rw [if_pos hp, if_pos hp]
        simp only [List.length_cons]
        omega
      · rw [if_neg hp, if_neg hp]
        omega

lemma defCount_remove (id : Nat) (live : List LiveHandle) (lh : LiveHandle)
    (h : lh ∈ live) (hnd : (live.map LiveHandle.hid).Nodup) :
    defCount (live.filter (fun x => decide (x.hid ≠ lh.hid))) id
      + (if (decide (lh.entryId = id) && lh.isDef) = true then 1 else 0) = defCount live id :=
  length_filter_remove (fun x => decide (x.entryId = id) && x.isDef) live lh h hnd

lemma implCount_remove (id : Nat) (live : List LiveHandle) (lh : LiveHandle)
    (h : lh ∈ live) (hnd : (live.map LiveHandle.hid).Nodup) :
    implCount (live.filter (fun x => decide (x.hid ≠ lh.hid))) id
      + (if (decide (lh.entryId = id) && !lh.isDef) = true then 1 else 0) = implCount live id :=
  length_filter_remove (fun x => decide (x.entryId = id) && !x.isDef) live lh h hnd

lemma handleCount_remove (id : Nat) (live : List LiveHandle) (lh : LiveHandle)
    (h : lh ∈ live) (hnd : (live.map LiveHandle.hid).Nodup) :
    handleCount (live.filter (fun x => decide (x.hid ≠ lh.hid))) id
      + (if decide (lh.entryId = id) = true then 1 else 0) = handleCount live id :=
  length_filter_remove (fun x => decide (x.entryId = id)) live lh h hnd

lemma defCount_append (live : List LiveHandle) (lh : LiveHandle) (id : Nat) :
    defCount (live ++ [lh]) id
      = defCount live id + (if (decide (lh.entryId = id) && lh.isDef) = true then 1 else 0) := by
  simp only [defCount, List.filter_append, List.length_append]
  by_cases hc : (decide (lh.entryId = id) && lh.isDef) = true
  · simp [List.filter_cons, hc]
  · simp [List.filter_cons, hc]

lemma implCount_append (live : List LiveHandle) (lh : LiveHandle) (id : Nat) :
    implCount (live ++ [lh]) id
      = implCount live id + (if (decide (lh.entryId = id) && !lh.isDef) = true then 1 else 0) := by
  simp only [implCount, List.filter_append, List.length_append]
  by_cases hc : (decide (lh.entryId = id) && !lh.isDef) = true
  · simp [List.filter_cons, hc]
  · simp [List.filter_cons, hc]

lemma handleCount_split (live : List LiveHandle) (id : Nat) :
    handleCount live id = defCount live id + implCount live id := by
  induction live with
  | nil => rfl
  | cons a as ih =>
    simp only [handleCount, defCount, implCount, List.filter_cons] at *
    by_cases he : a.entryId = id
    · by_cases hd : a.isDef = true
      · simp [he, hd, ih]; omega
      · simp [he, hd, ih]; omega
    · simp [he, ih]

lemma defCount_eq_zero (live : List LiveHandle) (id : Nat)
    (h : ∀ lh ∈ live, lh.entryId ≠ id) : defCount live id = 0 := by
  simp only [defCount, List.length_eq_zero]
  apply List.filter_eq_nil_iff.mpr
  intro lh hm
  simp [h lh hm]

lemma implCount_eq_zero (live : List LiveHandle) (id : Nat)
    (h : ∀ lh ∈ live, lh.entryId ≠ id) : implCount live id = 0 := by
  simp only [implCount, List.length_eq_zero]
  apply List.filter_eq_nil_iff.mpr
  intro lh hm
  simp [h lh hm]

lemma handleCount_eq_zero_iff (live : List LiveHandle) (id : Nat) :
    handleCount live id = 0 ↔ ∀ lh ∈ live, lh.entryId ≠ id := by
  simp only [handleCount, List.length_eq_zero, List.filter_eq_nil_iff]
  constructor
  · intro h lh hm; have := h lh hm; simpa using this
  · intro h lh hm; simp [h lh hm]

lemma one_le_defCount (live : List LiveHandle) (lh : LiveHandle) (id : Nat)
    (h : lh ∈ live) (he : lh.entryId = id) (hd : lh.isDef = true) :
    1 ≤ defCount live id := by
  have : lh ∈ live.filter (fun x => decide (x.entryId = id) && x.isDef) := by
    simp [List.mem_filter, h, he, hd]
  have := List.length_pos.mpr (List.ne_nil_of_mem this)
  simpa [defCount] using this

lemma one_le_implCount (live : List LiveHandle) (lh : LiveHandle) (id : Nat)
    (h : lh ∈ live) (he : lh.entryId = id) (hd : lh.isDef = false) :
    1 ≤ implCount live id := by
  have : lh ∈ live.filter (fun x => decide (x.entryId = id) && !x.isDef) := by
    simp [List.mem_filter, h, he, hd]
  have := List.length_pos.mpr (List.ne_nil_of_mem this)
  simpa [implCount] using this

lemma one_le_handleCount (live : List LiveHandle) (lh : LiveHandle) (id : Nat)
    (h : lh ∈ live) (he : lh.entryId = id) :
    1 ≤ handleCount live id := by
  have : lh ∈ live.filter (fun x => decide (x.entryId = id)) := by
    simp [List.mem_filter, h, he]
  have := List.length_pos.mpr (List.ne_nil_of_mem this)
  simpa [handleCount] using this

/-! ## Structural lemmas about lookup -/

lemma findSchema_some_inv {s : Dispatcher} {n : OperatorName} {op : OperatorHandle}
    (htbl : s.operatorLookupTable = s.operators.map keyOf)
    (h : s.findSchema n = some op) :
    ∃ d ∈ s.operators, d.id = op.entryId ∧ d.op.opName = n := by
  simp only [Dispatcher.findSchema] at h
  obtain ⟨p, hp, hop⟩ := Option.map_eq_some'.mp h
  have hpn : p.1 = n := by
    have := List.find?_some hp
    simpa using this
  have hmem : p ∈ s.operatorLookupTable := List.mem_of_find?_eq_some hp
  rw [htbl] at hmem
  obtain ⟨d, hd, hkey⟩ := List.mem_map.mp hmem
  refine ⟨d, hd, ?_, ?_⟩
  · have h2 : d.id = p.2 := congrArg Prod.snd hkey
    have h3 : op.entryId = p.2 := by
      cases hop
      rfl
    omega
  · have h1 : d.op.opName = p.1 := congrArg Prod.fst hkey
    rw [h1, hpn]

lemma findSchema_none_inv {s : Dispatcher} {n : OperatorName}
    (htbl : s.operatorLookupTable = s.operators.map keyOf)
    (h : s.findSchema n = none) :
    ∀ d ∈ s.operators, d.op.opName ≠ n := by
  simp only [Dispatcher.findSchema, Option.map_eq_none'] at h
  rw [List.find?_eq_none] at h
  intro d hd hc
  have hmem : keyOf d ∈ s.operatorLookupTable := by
    rw [htbl]
    exact List.mem_map_of_mem keyOf hd
  have := h _ hmem
  simp [keyOf, hc] at this

lemma findEntry_some {s : Dispatcher} {id : Nat} {d : OperatorDef}
    (h : s.findEntry id = some d) : d ∈ s.operators ∧ d.id = id := by
  refine ⟨List.mem_of_find?_eq_some h, ?_⟩
  have := List.find?_some h
  simpa using this

lemma findEntry_exists {s : Dispatcher} {id : Nat} {d : OperatorDef}
    (hd : d ∈ s.operators) (hid : d.id = id) : ∃ d', s.findEntry id = some d' := by
  have : (s.operators.find? (fun x => decide (x.id = id))).isSome := by
    rw [List.find?_isSome]
    exact ⟨d, hd, by simp [hid]⟩
  exact Option.isSome_iff_exists.mp this

lemma eq_of_ids_nodup {l : List OperatorDef}
    (h : (l.map OperatorDef.id).Nodup) {a b : OperatorDef}
    (ha : a ∈ l) (hb : b ∈ l) (hid : a.id = b.id) : a = b :=
  List.inj_on_of_nodup_map h ha hb hid

lemma eq_of_names_nodup {l : List OperatorDef}
    (h : (l.map (fun d => d.op.opName)).Nodup) {a b : OperatorDef}
    (ha : a ∈ l) (hb : b ∈ l) (hn : a.op.opName = b.op.opName) : a = b :=
  List.inj_on_of_nodup_map h ha hb hn

/-! ## The reachable state invariant -/

/-- The registry invariant: the lookup table mirrors the operator list, node
identities and operator names are unique, identities are below the fresh
counter, live handle identifiers are unique and below the fresh handle
counter, every live handle references an existing entry of its operator
name, the strong refcount of every entry equals the number of live
definition handles for it, and the weak refcount equals the strong refcount
plus the number of live implementation handles for it. -/
structure Inv (w : World) : Prop where
  tbl : w.disp.operatorLookupTable = w.disp.operators.map keyOf
  idsNodup : (w.disp.operators.map OperatorDef.id).Nodup
  namesNodup : (w.disp.operators.map (fun d => d.op.opName)).Nodup
  idsLt : ∀ d ∈ w.disp.operators, d.id < w.disp.nextEntryId
  hidsNodup : (w.live.map LiveHandle.hid).Nodup
  hidsLt : ∀ lh ∈ w.live, lh.hid < w.nextHid
  liveValid : ∀ lh ∈ w.live, ∃ d ∈ w.disp.operators, d.id = lh.entryId ∧ d.op.opName = lh.opName
  strong : ∀ d ∈ w.disp.operators, d.refcount = defCount w.live d.id
  weak : ∀ d ∈ w.disp.operators, d.weak_refcount = d.refcount + implCount w.live d.id

/-! ## Description lemmas for the registration paths -/

/-- A guarded in place update with a no-op function is the identity. -/
lemma map_guard_id (l : List OperatorDef) (t : Nat) :
    l.map (fun d => if d.id = t then d else d) = l := by
  simp only [ite_self]
  exact List.map_id' l

/-- Shape of a successful findOrRegisterWithSchema_: either the entry already
existed and the operator list is updated in place by a function preserving
identity, name and both refcounts (possibly the identity function), or the
name was absent and a fresh node is appended to the list and the table. -/
lemma findOrRegisterWithSchema_ok_cases {s : Dispatcher} {schema : FunctionSchema}
    {s1 : Dispatcher} {op : OperatorHandle}
    (h : s.findOrRegisterWithSchema schema = .ok (s1, op)) :
    (s.findSchema schema.operator_name = some op ∧
      ∃ f : OperatorDef → OperatorDef,
        (∀ d, (f d).id = d.id) ∧ (∀ d, (f d).op.opName = d.op.opName) ∧
        (∀ d, (f d).refcount = d.refcount) ∧ (∀ d, (f d).weak_refcount = d.weak_refcount) ∧
        s1.operators = s.operators.map (fun d => if d.id = op.entryId then f d else d) ∧
        s1.operatorLookupTable = s.operatorLookupTable ∧
        s1.nextEntryId = s.nextEntryId)
    ∨ (s.findSchema schema.operator_name = none ∧
        op = { entryId := s.nextEntryId } ∧
        s1.operators = s.operators ++ [freshSchemaEntry schema s.nextEntryId] ∧
        s1.operatorLookupTable = s.operatorLookupTable ++ [(schema.operator_name, s.nextEntryId)] ∧
        s1.nextEntryId = s.nextEntryId + 1) := by
  cases hfs : s.findSchema schema.operator_name with
  | none =>
    simp only [Dispatcher.findOrRegisterWithSchema, hfs, Except.ok.injEq, Prod.mk.injEq] at h
    obtain ⟨h1, h2⟩ := h
    right
    refine ⟨rfl, h2.symm, ?_, ?_, ?_⟩ <;> rw [← h1]
  | some found =>
    cases hfe : s.findEntry found.entryId with
    | none =>
      simp [Dispatcher.findOrRegisterWithSchema, hfs, hfe] at h
    | some d =>
      cases hds : d.op.schema with
      | none =>
        simp only [Dispatcher.findOrRegisterWithSchema, hfs, hfe, hds, Except.ok.injEq,
          Prod.mk.injEq] at h
        obtain ⟨h1, h2⟩ := h
        subst h2
        left
        refine ⟨rfl, fun e => { e with op := { e.op with schema := some schema } },
          fun d => rfl, fun d => rfl, fun d => rfl, fun d => rfl, ?_, ?_, ?_⟩ <;> rw [← h1] <;> rfl
      | some oldSchema =>
        simp only [Dispatcher.findOrRegisterWithSchema, hfs, hfe, hds] at h
        split at h
        · simp at h
        · split at h
          · simp only [Except.ok.injEq, Prod.mk.injEq] at h
            obtain ⟨h1, h2⟩ := h
            subst h2
            left
            refine ⟨rfl, fun e => e, fun d => rfl, fun d => rfl, fun d => rfl, fun d => rfl,
              ?_, ?_, ?_⟩ <;> rw [← h1]
            exact (map_guard_id s.operators found.entryId).symm
          · split at h
            · simp only [Except.ok.injEq, Prod.mk.injEq] at h
              obtain ⟨h1, h2⟩ := h
              subst h2
              left
              refine ⟨rfl, fun e => { e with op := e.op.updateSchemaAliasAnalysis schema.aliasKind },
                fun d => rfl, fun d => rfl, fun d => rfl, fun d => rfl, ?_, ?_, ?_⟩ <;>
                rw [← h1] <;> rfl
            · split at h
              · simp only [Except.ok.injEq, Prod.mk.injEq] at h
                obtain ⟨h1, h2⟩ := h
                subst h2
                left
                refine ⟨rfl, fun e => e, fun d => rfl, fun d => rfl, fun d => rfl, fun d => rfl,
                  ?_, ?_, ?_⟩ <;> rw [← h1]
                exact (map_guard_id s.operators found.entryId).symm
              · simp at h

/-- Shape of findOrRegisterWithName_: either the entry already existed and
nothing changes, or a fresh nameless node is appended. -/
lemma findOrRegisterWithName_cases (s : Dispatcher) (n : OperatorName) :
    (∃ op, s.findSchema n = some op ∧ s.findOrRegisterWithName n = (s, op))
    ∨ (s.findSchema n = none ∧
        s.findOrRegisterWithName n =
          ({ s with operators := s.operators ++ [freshNameEntry n s.nextEntryId],
                    operatorLookupTable := s.operatorLookupTable ++ [(n, s.nextEntryId)],
                    nextEntryId := s.nextEntryId + 1 },
           { entryId := s.nextEntryId })) := by
  cases hfs : s.findSchema n with
  | none =>
    right
    refine ⟨rfl, ?_⟩
    simp [Dispatcher.findOrRegisterWithName, hfs]
  | some found =>
    left
    refine ⟨found, rfl, ?_⟩
    simp [Dispatcher.findOrRegisterWithName, hfs]

/-- Shape of a successful registerDef: find or register, bump both refcounts
of the target node in place, and emit the registered event (paired with the
final state) exactly when the strong refcount became one. -/
lemma registerDef_ok {s : Dispatcher} {schema : FunctionSchema} {s2 : Dispatcher}
    {op : OperatorHandle} {evs : List (RegEvent × Dispatcher)}
    (h : s.registerDef schema = .ok (s2, op, evs)) :
    ∃ s1, s.findOrRegisterWithSchema schema = .ok (s1, op) ∧
      s2 = s1.updateEntry op.entryId bumpBoth ∧
      ∃ d, s2.findEntry op.entryId = some d ∧
        evs = if d.refcount = 1 then [(RegEvent.registered op, s2)] else [] := by
  cases hfr : s.findOrRegisterWithSchema schema with
  | error e => simp [Dispatcher.registerDef, hfr] at h
  | ok pr =>
    obtain ⟨s1, op1⟩ := pr
    cases hfe : (s1.updateEntry op1.entryId bumpBoth).findEntry op1.entryId with
    | none =>
      simp [Dispatcher.registerDef, hfr, hfe] at h
    | some d =>
      simp only [Dispatcher.registerDef, hfr, hfe, Except.ok.injEq, Prod.mk.injEq] at h
      obtain ⟨h1, h2, h3⟩ := h
      subst h1
      subst h2
      exact ⟨s1, rfl, rfl, d, hfe, h3.symm⟩

/-- Shape of a successful registerImpl: find or register by name, register
the kernel and bump only the weak refcount of the target node; no listener
event is emitted. -/
lemma registerImpl_ok {s : Dispatcher} {n : OperatorName} {key : Option DispatchKey}
    {kf : KernelFunction} {s2 : Dispatcher} {op : OperatorHandle} {tok : Nat}
    {evs : List (RegEvent × Dispatcher)}
    (h : s.registerImpl n key kf = .ok (s2, op, tok, evs)) :
    evs = [] ∧
    ∃ s1 d, s.findOrRegisterWithName n = (s1, op) ∧
      s1.findEntry op.entryId = some d ∧
      s2 = s1.updateEntry op.entryId
        (fun x =>
          { x with
              op := (d.op.registerKernel key kf).1,
              weak_refcount := x.weak_refcount + 1 }) ∧
      tok = (d.op.registerKernel key kf).2 := by
  cases hfr : s.findOrRegisterWithName n with
  | mk s1 op1 =>
    cases hfe : s1.findEntry op1.entryId with
    | none =>
      simp [Dispatcher.registerImpl, hfr, hfe] at h
    | some d =>
      simp only [Dispatcher.registerImpl, hfr, hfe, Except.ok.injEq, Prod.mk.injEq] at h
      obtain ⟨h1, h2, h3, h4⟩ := h
      subst h1
      subst h2
      exact ⟨h4.symm, s1, d, rfl, hfe, rfl, h3.symm⟩

/-- Shape of a successful deregisterDef_: the entry exists under the handle
with the matching name, both refcounts were positive, both are decremented
in place, the deregistered event fires (paired with the decremented but not
yet erased state) exactly when the strong refcount reached zero, and the
entry is erased from list and table exactly when the weak refcount reached
zero. -/
lemma deregisterDef_ok {s : Dispatcher} {op : OperatorHandle} {n : OperatorName}
    {s2 : Dispatcher} {evs : List (RegEvent × Dispatcher)}
    (h : s.deregisterDef op n = .ok (s2, evs)) :
    ∃ d, s.findEntry op.entryId = some d ∧ d.op.opName = n ∧
      0 < d.refcount ∧ 0 < d.weak_refcount ∧
      evs = (if d.refcount - 1 = 0 then
              [(RegEvent.deregistered op, s.updateEntry op.entryId dropBoth)]
             else []) ∧
      s2 = (if d.weak_refcount - 1 = 0 then
              (s.updateEntry op.entryId dropBoth).eraseEntry op.entryId n
            else
              s.updateEntry op.entryId dropBoth) := by
  cases hfe : s.findEntry op.entryId with
  | none =>
    simp [Dispatcher.deregisterDef, hfe] at h
  | some d =>
    simp only [Dispatcher.deregisterDef, hfe] at h
    split at h
    · simp at h
    · rename_i hname
      split at h
      · simp at h
      · rename_i hrc
        split at h
        · simp at h
        · rename_i hwrc
          refine ⟨d, rfl, by simpa using hname, by omega, by omega, ?_⟩
          split at h
          · rename_i hw0
            simp only [Except.ok.injEq, Prod.mk.injEq] at h
            obtain ⟨h1, h2⟩ := h
            rw [if_pos hw0, ← h1, ← h2]
            exact ⟨rfl, rfl⟩
          · rename_i hw0
            simp only [Except.ok.injEq, Prod.mk.injEq] at h
            obtain ⟨h1, h2⟩ := h
            rw [if_neg hw0, ← h1, ← h2]
            exact ⟨rfl, rfl⟩

/-- Shape of a successful deregisterImpl_: the entry exists under the handle
with the matching name, the weak refcount was positive and is decremented in
place, and the entry is erased from list and table exactly when it reached
zero. -/
lemma deregisterImpl_ok {s : Dispatcher} {op : OperatorHandle} {n : OperatorName}
    {s2 : Dispatcher}
    (h : s.deregisterImpl op n = .ok s2) :
    ∃ d, s.findEntry op.entryId = some d ∧ d.op.opName = n ∧
      0 < d.weak_refcount ∧
      s2 = (if d.weak_refcount - 1 = 0 then
              (s.updateEntry op.entryId
                (fun e => { e with weak_refcount := e.weak_refcount - 1 })).eraseEntry
                op.entryId n
            else
              s.updateEntry op.entryId
                (fun e => { e with weak_refcount := e.weak_refcount - 1 })) := by
  cases hfe : s.findEntry op.entryId with
  | none =>
    simp [Dispatcher.deregisterImpl, hfe] at h
  | some d =>
    simp only [Dispatcher.deregisterImpl, hfe] at h
    split at h
    · simp at h
    · rename_i hname
      split at h
      · simp at h
      · rename_i hwrc
        refine ⟨d, rfl, by simpa using hname, by omega, ?_⟩
        split at h
        · rename_i hw0
          injection h with h1
          rw [if_pos hw0, ← h1]
        · rename_i hw0
          injection h with h1
          rw [if_neg hw0, ← h1]

/-- Shape of a successful implementation handle disposal: remove the kernel
slot in place, then run deregisterImpl_ on the resulting state. -/
lemma disposeImplHandle_ok {s : Dispatcher} {op : OperatorHandle} {n : OperatorName}
    {key : Option DispatchKey} {tok : Nat} {s2 : Dispatcher}
    (h : s.disposeImplHandle op n key tok = .ok s2) :
    ∃ d, s.findEntry op.entryId = some d ∧
      (s.updateEntry op.entryId
        (fun x => { x with op := x.op.deregisterKernel key tok })).deregisterImpl op n
        = .ok s2 := by
  cases hfe : s.findEntry op.entryId with
  | none =>
    simp [Dispatcher.disposeImplHandle, hfe] at h
  | some d =>
    simp only [Dispatcher.disposeImplHandle, hfe] at h
    exact ⟨d, rfl, h⟩

/-! ## Invariant preservation -/

lemma guard_map_keyOf (l : List OperatorDef) (t : Nat) (F : OperatorDef → OperatorDef)
    (h : ∀ d ∈ l, d.id = t → ((F d).id = d.id ∧ (F d).op.opName = d.op.opName)) :
    (l.map (fun d => if d.id = t then F d else d)).map keyOf = l.map keyOf := by
  rw [List.map_map]
  apply List.map_congr_left
  intro d hd
  by_cases hdt : d.id = t
  · obtain ⟨h1, h2⟩ := h d hd hdt
    simp [Function.comp, hdt, keyOf, h1, h2]
  · simp [Function.comp, hdt]

lemma guard_map_ids (l : List OperatorDef) (t : Nat) (F : OperatorDef → OperatorDef)
    (h : ∀ d ∈ l, d.id = t → (F d).id = d.id) :
    (l.map (fun d => if d.id = t then F d else d)).map OperatorDef.id
      = l.map OperatorDef.id := by
  rw [List.map_map]
  apply List.map_congr_left
  intro d hd
  by_cases hdt : d.id = t
  · simp [Function.comp, hdt, h d hd hdt]
  · simp [Function.comp, hdt]

lemma guard_map_names (l : List OperatorDef) (t : Nat) (F : OperatorDef → OperatorDef)
    (h : ∀ d ∈ l, d.id = t → (F d).op.opName = d.op.opName) :
    (l.map (fun d => if d.id = t then F d else d)).map (fun d => d.op.opName)
      = l.map (fun d => d.op.opName) := by
  rw [List.map_map]
  apply List.map_congr_left
  intro d hd
  by_cases hdt : d.id = t
  · simp [Function.comp, hdt, h d hd hdt]
  · simp [Function.comp, hdt]

lemma mem_guard_map {l : List OperatorDef} {t : Nat} {F : OperatorDef → OperatorDef}
    {d' : OperatorDef} (h : d' ∈ l.map (fun d => if d.id = t then F d else d)) :
    ∃ d ∈ l, d' = if d.id = t then F d else d := by
  obtain ⟨d, hd, he⟩ := List.mem_map.mp h
  exact ⟨d, hd, he.symm⟩

/-- No live handle of an invariant satisfying world references the fresh
identity. -/
lemma no_live_at_fresh {w : World} (hw : Inv w) :
    ∀ lh ∈ w.live, lh.entryId ≠ w.disp.nextEntryId := by
  intro lh hm
  obtain ⟨d, hd, hid, _⟩ := hw.liveValid lh hm
  have := hw.idsLt d hd
  omega

/-- Invariant preservation for the registration shape: one node updated in
place (with the refcount deltas of a definition or implementation
registration) and a matching fresh handle appended to the live list. -/
lemma inv_update_append
    {w : World} (hw : Inv w) (t : Nat) (F : OperatorDef → OperatorDef) (lh : LiveHandle)
    (hF : ∀ x ∈ w.disp.operators, x.id = t →
      ((F x).id = x.id ∧ (F x).op.opName = x.op.opName ∧
       (F x).refcount = x.refcount + (if lh.isDef then 1 else 0) ∧
       (F x).weak_refcount = x.weak_refcount + 1))
    (hlh : lh.entryId = t) (hhid : lh.hid = w.nextHid)
    (ht : ∃ d0 ∈ w.disp.operators, d0.id = t ∧ d0.op.opName = lh.opName)
    {s2 : Dispatcher}
    (hops : s2.operators = w.disp.operators.map (fun d => if d.id = t then F d else d))
    (htbl : s2.operatorLookupTable = w.disp.operatorLookupTable)
    (hnext : s2.nextEntryId = w.disp.nextEntryId) :
    Inv { disp := s2, live := w.live ++ [lh], nextHid := w.nextHid + 1 } := by
  refine ⟨?_, ?_, ?_, ?_, ?_, ?_, ?_, ?_, ?_⟩
  · show s2.operatorLookupTable = s2.operators.map keyOf
    rw [htbl, hops, hw.tbl, guard_map_keyOf]
    intro x hx hxt
    exact ⟨(hF x hx hxt).1, (hF x hx hxt).2.1⟩
  · show (s2.operators.map OperatorDef.id).Nodup
    rw [hops, guard_map_ids]
    · exact hw.idsNodup
    · intro x hx hxt
      exact (hF x hx hxt).1
  · show (s2.operators.map (fun d => d.op.opName)).Nodup
    rw [hops, guard_map_names]
    · exact hw.namesNodup
    · intro x hx hxt
      exact (hF x hx hxt).2.1
  · show ∀ d ∈ s2.operators, d.id < s2.nextEntryId
    intro d' hd'
    rw [hops] at hd'
    obtain ⟨d, hd, he⟩ := mem_guard_map hd'
    rw [hnext]
    by_cases hdt : d.id = t
    · rw [he, if_pos hdt, (hF d hd hdt).1]
      exact hw.idsLt d hd
    · rw [he, if_neg hdt]
      exact hw.idsLt d hd
  · show ((w.live ++ [lh]).map LiveHandle.hid).Nodup
    rw [List.map_append]
    refine List.nodup_append.mpr ⟨hw.hidsNodup, List.nodup_singleton _, ?_⟩
    intro a ha hb
    simp only [List.map_cons, List.map_nil, List.mem_singleton] at hb
    obtain ⟨x, hx, hxa⟩ := List.mem_map.mp ha
    have := hw.hidsLt x hx
    subst hb
    omega
  · show ∀ x ∈ w.live ++ [lh], x.hid < w.nextHid + 1
    intro x hx
    rcases List.mem_append.mp hx with h1 | h1
    · have := hw.hidsLt x h1
      omega
    · simp only [List.mem_singleton] at h1
      subst h1
      omega
  · show ∀ lhx ∈ w.live ++ [lh],
      ∃ d ∈ s2.operators, d.id = lhx.entryId ∧ d.op.opName = lhx.opName
    intro lhx hx
    rcases List.mem_append.mp hx with h1 | h1
    · obtain ⟨d, hd, hid, hname⟩ := hw.liveValid lhx h1
      refine ⟨if d.id = t then F d else d, ?_, ?_, ?_⟩
      · rw [hops]
        exact List.mem_map_of_mem _ hd
      · by_cases hdt : d.id = t
        · rw [if_pos hdt, (hF d hd hdt).1]
          exact hid
        · rw [if_neg hdt]
          exact hid
      · by_cases hdt : d.id = t
        · rw [if_pos hdt, (hF d hd hdt).2.1]
          exact hname
        · rw [if_neg hdt]
          exact hname
    · simp only [List.mem_singleton] at h1
      subst h1
      obtain ⟨d0, hd0, hd0t, hd0n⟩ := ht
      refine ⟨F d0, ?_, ?_, ?_⟩
      · rw [hops]
        have : F d0 = if d0.id = t then F d0 else d0 := by rw [if_pos hd0t]
        rw [this]
        exact List.mem_map_of_mem _ hd0
      · rw [(hF d0 hd0 hd0t).1, hd0t, hlh]
      · rw [(hF d0 hd0 hd0t).2.1, hd0n]
  · show ∀ d ∈ s2.operators, d.refcount = defCount (w.live ++ [lh]) d.id
    intro d' hd'
    rw [hops] at hd'
    obtain ⟨d, hd, he⟩ := mem_guard_map hd'
    by_cases hdt : d.id = t
    · obtain ⟨hFid, hFn, hFrc, hFw⟩ := hF d hd hdt
      rw [he, if_pos hdt]
      rw [defCount_append, hFid, hFrc, hw.strong d hd]
      have hcond : lh.entryId = d.id := by rw [hlh, hdt]
      by_cases hdef : lh.isDef = true
      · simp [hcond, hdef]
      · simp [hcond, hdef]
    · rw [he, if_neg hdt]
      rw [defCount_append]
      have hcond : ¬ (lh.entryId = d.id) := by
        rw [hlh]
        intro hc
        exact hdt hc.symm
      have hc2 : (decide (lh.entryId = d.id) && lh.isDef) = false := by
        simp [hcond]
      rw [hc2]
      simpa using hw.strong d hd
  · show ∀ d ∈ s2.operators,
      d.weak_refcount = d.refcount + implCount (w.live ++ [lh]) d.id
    intro d' hd'
    rw [hops] at hd'
    obtain ⟨d, hd, he⟩ := mem_guard_map hd'
    by_cases hdt : d.id = t
    · obtain ⟨hFid, hFn, hFrc, hFw⟩ := hF d hd hdt
      rw [he, if_pos hdt]
      rw [implCount_append, hFid, hFrc, hFw, hw.weak d hd]
      have hcond : lh.entryId = d.id := by rw [hlh, hdt]
      by_cases hdef : lh.isDef = true
      · simp only [hcond, decide_eq_true_eq]
        simp [hdef]
        omega
      · simp only [hcond]
        simp [hdef]
        omega
    · rw [he, if_neg hdt]
      rw [implCount_append]
      have hcond : ¬ (lh.entryId = d.id) := by
        rw [hlh]
        intro hc
        exact hdt hc.symm
      simp only [decide_eq_false hcond, Bool.false_and, Bool.false_eq_true, if_false,
        Nat.add_zero]
      exact hw.weak d hd

/-- Invariant preservation for the registration shape that appends a fresh
node together with its first live handle. -/
lemma inv_append_fresh
    {w : World} (hw : Inv w) (newd : OperatorDef) (lh : LiveHandle)
    (hid : newd.id = w.disp.nextEntryId)
    (habs : w.disp.findSchema newd.op.opName = none)
    (hrc : newd.refcount = if lh.isDef then 1 else 0)
    (hwrc : newd.weak_refcount = newd.refcount + (if lh.isDef then 0 else 1))
    (hlh : lh.entryId = newd.id) (hhid : lh.hid = w.nextHid)
    (hlname : lh.opName = newd.op.opName)
    {s2 : Dispatcher}
    (hops : s2.operators = w.disp.operators ++ [newd])
    (htbl : s2.operatorLookupTable
      = w.disp.operatorLookupTable ++ [(newd.op.opName, newd.id)])
    (hnext : s2.nextEntryId = w.disp.nextEntryId + 1) :
    Inv { disp := s2, live := w.live ++ [lh], nextHid := w.nextHid + 1 } := by
  have hfreshLive : ∀ x ∈ w.live, x.entryId ≠ newd.id := by
    intro x hx
    rw [hid]
    exact no_live_at_fresh hw x hx
  refine ⟨?_, ?_, ?_, ?_, ?_, ?_, ?_, ?_, ?_⟩
  · show s2.operatorLookupTable = s2.operators.map keyOf
    rw [htbl, hops, hw.tbl, List.map_append]
    rfl
  · show (s2.operators.map OperatorDef.id).Nodup
    rw [hops, List.map_append]
    refine List.nodup_append.mpr ⟨hw.idsNodup, List.nodup_singleton _, ?_⟩
    intro a ha hb
    simp only [List.map_cons, List.map_nil, List.mem_singleton] at hb
    obtain ⟨x, hx, hxa⟩ := List.mem_map.mp ha
    have := hw.idsLt x hx
    subst hb
    omega
  · show (s2.operators.map (fun d => d.op.opName)).Nodup
    rw [hops, List.map_append]
    refine List.nodup_append.mpr ⟨hw.namesNodup, List.nodup_singleton _, ?_⟩
    intro a ha hb
    simp only [List.map_cons, List.map_nil, List.mem_singleton] at hb
    obtain ⟨x, hx, hxa⟩ := List.mem_map.mp ha
    have := findSchema_none_inv hw.tbl habs x hx
    subst hb
    rw [hxa] at this
    exact this rfl
  · show ∀ d ∈ s2.operators, d.id < s2.nextEntryId
    intro d hd
    rw [hops] at hd
    rw [hnext]
    rcases List.mem_append.mp hd with h1 | h1
    · have := hw.idsLt d h1
      omega
    · simp only [List.mem_singleton] at h1
      subst h1
      omega
  · show ((w.live ++ [lh]).map LiveHandle.hid).Nodup
    rw [List.map_append]
    refine List.nodup_append.mpr ⟨hw.hidsNodup, List.nodup_singleton _, ?_⟩
    intro a ha hb
    simp only [List.map_cons, List.map_nil, List.mem_singleton] at hb
    obtain ⟨x, hx, hxa⟩ := List.mem_map.mp ha
    have := hw.hidsLt x hx
    subst hb
    omega
  · show ∀ x ∈ w.live ++ [lh], x.hid < w.nextHid + 1
    intro x hx
    rcases List.mem_append.mp hx with h1 | h1
    · have := hw.hidsLt x h1
      omega
    · simp only [List.mem_singleton] at h1
      subst h1
      omega
  · show ∀ lhx ∈ w.live ++ [lh],
      ∃ d ∈ s2.operators, d.id = lhx.entryId ∧ d.op.opName = lhx.opName
    intro lhx hx
    rcases List.mem_append.mp hx with h1 | h1
    · obtain ⟨d, hd, hdid, hdname⟩ := hw.liveValid lhx h1
      refine ⟨d, ?_, hdid, hdname⟩
      rw [hops]
      exact List.mem_append_left _ hd
    · simp only [List.mem_singleton] at h1
      subst h1
      refine ⟨newd, ?_, hlh.symm, hlname.symm⟩
      rw [hops]
      exact List.mem_append_right _ (List.mem_singleton.mpr rfl)
  · show ∀ d ∈ s2.operators, d.refcount = defCount (w.live ++ [lh]) d.id
    intro d hd
    rw [hops] at hd
    rcases List.mem_append.mp hd with h1 | h1
    · rw [defCount_append]
      have hcond : ¬ (lh.entryId = d.id) := by
        rw [hlh, hid]
        intro hc
        have := hw.idsLt d h1
        omega
      simp only [decide_eq_false hcond, Bool.false_and, Bool.false_eq_true, if_false,
        Nat.add_zero]
      exact hw.strong d h1
    · simp only [List.mem_singleton] at h1
      subst h1
      rw [defCount_append, defCount_eq_zero w.live d.id (fun x hx => hfreshLive x hx), hrc]
      have hcond : lh.entryId = d.id := hlh
      by_cases hdef : lh.isDef = true
      · simp [hcond, hdef]
      · simp [hcond, hdef]
  · show ∀ d ∈ s2.operators,
      d.weak_refcount = d.refcount + implCount (w.live ++ [lh]) d.id
    intro d hd
    rw [hops] at hd
    rcases List.mem_append.mp hd with h1 | h1
    · rw [implCount_append]
      have hcond : ¬ (lh.entryId = d.id) := by
        rw [hlh, hid]
        intro hc
        have := hw.idsLt d h1
        omega
      simp only [decide_eq_false hcond, Bool.false_and, Bool.false_eq_true, if_false,
        Nat.add_zero]
      exact hw.weak d h1
    · simp only [List.mem_singleton] at h1
      subst h1
      rw [implCount_append, implCount_eq_zero w.live d.id (fun x hx => hfreshLive x hx), hwrc]
      have hcond : lh.entryId = d.id := hlh
      by_cases hdef : lh.isDef = true
      · simp [hcond, hdef]
      · simp [hcond, hdef]

lemma guard_map_comp (l : List OperatorDef) (t : Nat) (f g : OperatorDef → OperatorDef)
    (hg : ∀ d, (g d).id = d.id) :
    (l.map (fun d => if d.id = t then g d else d)).map (fun d => if d.id = t then f d else d)
      = l.map (fun d => if d.id = t then f (g d) else d) := by
  rw [List.map_map]
  apply List.map_congr_left
  intro d _
  by_cases hd : d.id = t
  · simp [Function.comp, hd, hg d]
  · simp [Function.comp, hd]

lemma updateEntry_updateEntry (s : Dispatcher) (t : Nat) (f g : OperatorDef → OperatorDef)
    (hg : ∀ d, (g d).id = d.id) :
    (s.updateEntry t g).updateEntry t f = s.updateEntry t (fun d => f (g d)) := by
  simp only [Dispatcher.updateEntry]
  rw [guard_map_comp s.operators t f g hg]

lemma findEntry_updateEntry (s : Dispatcher) (t : Nat) (F : OperatorDef → OperatorDef)
    (hF : ∀ d, (F d).id = d.id) :
    (s.updateEntry t F).findEntry t
      = (s.findEntry t).map (fun d => if d.id = t then F d else d) := by
  simp only [Dispatcher.findEntry, Dispatcher.updateEntry]
  rw [List.find?_map]
  have hpred : ((fun d : OperatorDef => decide (d.id = t)) ∘ fun d => if d.id = t then F d else d)
      = (fun d : OperatorDef => decide (d.id = t)) := by
    funext d
    by_cases hd : d.id = t <;> simp [Function.comp, hd, hF d]
  rw [hpred]

lemma guard_map_filter_ne (l : List OperatorDef) (t : Nat) (F : OperatorDef → OperatorDef)
    (hF : ∀ d, (F d).id = d.id) :
    (l.map (fun d => if d.id = t then F d else d)).filter (fun d => decide (d.id ≠ t))
      = l.filter (fun d => decide (d.id ≠ t)) := by
  rw [List.filter_map]
  have h1 : (l.filter ((fun d => decide (d.id ≠ t)) ∘ fun d => if d.id = t then F d else d))
      = l.filter (fun d => decide (d.id ≠ t)) := by
    apply List.filter_congr
    intro d _
    by_cases hd : d.id = t <;> simp [Function.comp, hd, hF d]
  rw [h1]
  have h2 : ∀ d ∈ l.filter (fun d => decide (d.id ≠ t)),
      (if d.id = t then F d else d) = d := by
    intro d hd
    have := List.of_mem_filter hd
    simp only [decide_eq_true_eq] at this
    rw [if_neg this]
  calc (l.filter (fun d => decide (d.id ≠ t))).map (fun d => if d.id = t then F d else d)
      = (l.filter (fun d => decide (d.id ≠ t))).map (fun d => d) := List.map_congr_left h2
    _ = l.filter (fun d => decide (d.id ≠ t)) := List.map_id' _

lemma filter_name_eq_filter_id {l : List OperatorDef}
    (hids : (l.map OperatorDef.id).Nodup)
    (hnames : (l.map (fun d => d.op.opName)).Nodup)
    {d0 : OperatorDef} (hd0 : d0 ∈ l) :
    l.filter (fun d => decide (d.op.opName ≠ d0.op.opName))
      = l.filter (fun d => decide (d.id ≠ d0.id)) := by
  apply List.filter_congr
  intro d hd
  by_cases h1 : d.id = d0.id
  · have hde : d = d0 := eq_of_ids_nodup hids hd hd0 h1
    subst hde
    simp
  · have h2 : d.op.opName ≠ d0.op.opName := by
      intro hc
      exact h1 (congrArg OperatorDef.id (eq_of_names_nodup hnames hd hd0 hc))
    simp [h1, h2]

/-- Invariant preservation for the deregistration shape that updates a node
in place (no erasure) while a live handle is removed. -/
lemma inv_remove_update
    {w : World} (hw : Inv w) (lh : LiveHandle) (hmem : lh ∈ w.live)
    (t : Nat) (hlh : lh.entryId = t) (F : OperatorDef → OperatorDef)
    (hF : ∀ x ∈ w.disp.operators, x.id = t →
      ((F x).id = x.id ∧ (F x).op.opName = x.op.opName ∧
       (F x).refcount = x.refcount - (if lh.isDef then 1 else 0) ∧
       (F x).weak_refcount = x.weak_refcount - 1))
    {s2 : Dispatcher}
    (hops : s2.operators = w.disp.operators.map (fun d => if d.id = t then F d else d))
    (htbl : s2.operatorLookupTable = w.disp.operatorLookupTable)
    (hnext : s2.nextEntryId = w.disp.nextEntryId) :
    Inv { disp := s2, live := w.live.filter (fun x => decide (x.hid ≠ lh.hid)),
          nextHid := w.nextHid } := by
  refine ⟨?_, ?_, ?_, ?_, ?_, ?_, ?_, ?_, ?_⟩
  · show s2.operatorLookupTable = s2.operators.map keyOf
    rw [htbl, hops, hw.tbl, guard_map_keyOf]
    intro x hx hxt
    exact ⟨(hF x hx hxt).1, (hF x hx hxt).2.1⟩
  · show (s2.operators.map OperatorDef.id).Nodup
    rw [hops, guard_map_ids]
    · exact hw.idsNodup
    · intro x hx hxt
      exact (hF x hx hxt).1
  · show (s2.operators.map (fun d => d.op.opName)).Nodup
    rw [hops, guard_map_names]
    · exact hw.namesNodup
    · intro x hx hxt
      exact (hF x hx hxt).2.1
  · show ∀ d ∈ s2.operators, d.id < s2.nextEntryId
    intro d' hd'
    rw [hops] at hd'
    obtain ⟨d, hd, he⟩ := mem_guard_map hd'
    rw [hnext]
    by_cases hdt : d.id = t
    · rw [he, if_pos hdt, (hF d hd hdt).1]
      exact hw.idsLt d hd
    · rw [he, if_neg hdt]
      exact hw.idsLt d hd
  · show ((w.live.filter (fun x => decide (x.hid ≠ lh.hid))).map LiveHandle.hid).Nodup
    exact hw.hidsNodup.sublist (List.Sublist.map _ (List.filter_sublist _))
  · show ∀ x ∈ w.live.filter (fun x => decide (x.hid ≠ lh.hid)), x.hid < w.nextHid
    intro x hx
    exact hw.hidsLt x (List.mem_of_mem_filter hx)
  · show ∀ lhx ∈ w.live.filter (fun x => decide (x.hid ≠ lh.hid)),
      ∃ d ∈ s2.operators, d.id = lhx.entryId ∧ d.op.opName = lhx.opName
    intro lhx hx
    obtain ⟨d, hd, hdid, hdname⟩ := hw.liveValid lhx (List.mem_of_mem_filter hx)
    refine ⟨if d.id = t then F d else d, ?_, ?_, ?_⟩
    · rw [hops]
      exact List.mem_map_of_mem _ hd
    · by_cases hdt : d.id = t
      · rw [if_pos hdt, (hF d hd hdt).1]
        exact hdid
      · rw [if_neg hdt]
        exact hdid
    · by_cases hdt : d.id = t
      · rw [if_pos hdt, (hF d hd hdt).2.1]
        exact hdname
      · rw [if_neg hdt]
        exact hdname
  · show ∀ d ∈ s2.operators,
      d.refcount = defCount (w.live.filter (fun x => decide (x.hid ≠ lh.hid))) d.id
    intro d' hd'
    rw [hops] at hd'
    obtain ⟨d, hd, he⟩ := mem_guard_map hd'
    have hdc := defCount_remove d.id w.live lh hmem hw.hidsNodup
    by_cases hdt : d.id = t
    · obtain ⟨hFid, hFn, hFrc, hFw⟩ := hF d hd hdt
      have hcond : lh.entryId = d.id := by rw [hlh, hdt]
      have hcnt : (if (decide (lh.entryId = d.id) && lh.isDef) = true then 1 else 0)
          = (if lh.isDef = true then 1 else 0) := by
        simp [hcond]
      rw [hcnt] at hdc
      rw [he, if_pos hdt, hFid, hFrc, hw.strong d hd]
      omega
    · have hcond : ¬ (lh.entryId = d.id) := by
        rw [hlh]
        intro hc
        exact hdt hc.symm
      have hcnt : (if (decide (lh.entryId = d.id) && lh.isDef) = true then 1 else 0) = 0 := by
        simp [hcond]
      rw [hcnt] at hdc
      rw [he, if_neg hdt, hw.strong d hd]
      omega
  · show ∀ d ∈ s2.operators,
      d.weak_refcount
        = d.refcount + implCount (w.live.filter (fun x => decide (x.hid ≠ lh.hid))) d.id
    intro d' hd'
    rw [hops] at hd'
    obtain ⟨d, hd, he⟩ := mem_guard_map hd'
    have hdc := defCount_remove d.id w.live lh hmem hw.hidsNodup
    have hic := implCount_remove d.id w.live lh hmem hw.hidsNodup
    have hwk := hw.weak d hd
    have hstr := hw.strong d hd
    by_cases hdt : d.id = t
    · obtain ⟨hFid, hFn, hFrc, hFw⟩ := hF d hd hdt
      have hcond : lh.entryId = d.id := by rw [hlh, hdt]
      have hcntD : (if (decide (lh.entryId = d.id) && lh.isDef) = true then 1 else 0)
          = (if lh.isDef = true then 1 else 0) := by
        simp [hcond]
      have hcntI : (if (decide (lh.entryId = d.id) && !lh.isDef) = true then 1 else 0)
          = (if lh.isDef = true then 0 else 1) := by
        by_cases hdef : lh.isDef = true <;> simp [hcond, hdef]
      have hsum : (if lh.isDef = true then 1 else 0) + (if lh.isDef = true then 0 else 1)
          = 1 := by
        by_cases hdef : lh.isDef = true <;> simp [hdef]
      rw [hcntD] at hdc
      rw [hcntI] at hic
      rw [he, if_pos hdt, hFid, hFrc, hFw]
      omega
    · have hcond : ¬ (lh.entryId = d.id) := by
        rw [hlh]
        intro hc
        exact hdt hc.symm
      have hcntI : (if (decide (lh.entryId = d.id) && !lh.isDef) = true then 1 else 0)
          = 0 := by
        simp [hcond]
      rw [hcntI] at hic
      rw [he, if_neg hdt]
      omega

/-- Invariant preservation for the deregistration shape that erases the
entry (its weak refcount reached zero) while the last live handle of the
entry is removed. -/
lemma inv_remove_erase
    {w : World} (hw : Inv w) (lh : LiveHandle) (hmem : lh ∈ w.live)
    (t : Nat) (hlh : lh.entryId = t)
    (hhc : handleCount w.live t = 1)
    {s2 : Dispatcher}
    (hops : s2.operators = w.disp.operators.filter (fun d => decide (d.id ≠ t)))
    (htbl : s2.operatorLookupTable
      = (w.disp.operators.filter (fun d => decide (d.id ≠ t))).map keyOf)
    (hnext : s2.nextEntryId = w.disp.nextEntryId) :
    Inv { disp := s2, live := w.live.filter (fun x => decide (x.hid ≠ lh.hid)),
          nextHid := w.nextHid } := by
  have hgone : ∀ x ∈ w.live.filter (fun x => decide (x.hid ≠ lh.hid)), x.entryId ≠ t := by
    have hrem := handleCount_remove t w.live lh hmem hw.hidsNodup
    rw [hhc] at hrem
    have hcnt : (if decide (lh.entryId = t) = true then 1 else 0) = 1 := by
      simp [hlh]
    rw [hcnt] at hrem
    have h0 : handleCount (w.live.filter (fun x => decide (x.hid ≠ lh.hid))) t = 0 := by
      omega
    exact (handleCount_eq_zero_iff _ _).mp h0
  refine ⟨?_, ?_, ?_, ?_, ?_, ?_, ?_, ?_, ?_⟩
  · show s2.operatorLookupTable = s2.operators.map keyOf
    rw [htbl, hops]
  · show (s2.operators.map OperatorDef.id).Nodup
    rw [hops]
    exact hw.idsNodup.sublist (List.Sublist.map _ (List.filter_sublist _))
  · show (s2.operators.map (fun d => d.op.opName)).Nodup
    rw [hops]
    exact hw.namesNodup.sublist (List.Sublist.map _ (List.filter_sublist _))
  · show ∀ d ∈ s2.operators, d.id < s2.nextEntryId
    intro d hd
    rw [hops] at hd
    rw [hnext]
    exact hw.idsLt d (List.mem_of_mem_filter hd)
  · show ((w.live.filter (fun x => decide (x.hid ≠ lh.hid))).map LiveHandle.hid).Nodup
    exact hw.hidsNodup.sublist (List.Sublist.map _ (List.filter_sublist _))
  · show ∀ x ∈ w.live.filter (fun x => decide (x.hid ≠ lh.hid)), x.hid < w.nextHid
    intro x hx
    exact hw.hidsLt x (List.mem_of_mem_filter hx)
  · show ∀ lhx ∈ w.live.filter (fun x => decide (x.hid ≠ lh.hid)),
      ∃ d ∈ s2.operators, d.id = lhx.entryId ∧ d.op.opName = lhx.opName
    intro lhx hx
    obtain ⟨d, hd, hdid, hdname⟩ := hw.liveValid lhx (List.mem_of_mem_filter hx)
    have hne : d.id ≠ t := by
      rw [hdid]
      exact hgone lhx hx
    refine ⟨d, ?_, hdid, hdname⟩
    rw [hops]
    exact List.mem_filter.mpr ⟨hd, by simp [hne]⟩
  · show ∀ d ∈ s2.operators,
      d.refcount = defCount (w.live.filter (fun x => decide (x.hid ≠ lh.hid))) d.id
    intro d hd
    rw [hops] at hd
    have hne : d.id ≠ t := by
      have := List.of_mem_filter hd
      simpa using this
    have hdc := defCount_remove d.id w.live lh hmem hw.hidsNodup
    have hcond : ¬ (lh.entryId = d.id) := by
      rw [hlh]
      intro hc
      exact hne hc.symm
    simp only [decide_eq_false hcond, Bool.false_and, Bool.false_eq_true, if_false,
      Nat.add_zero] at hdc
    rw [hw.strong d (List.mem_of_mem_filter hd)]
    omega
  · show ∀ d ∈ s2.operators,
      d.weak_refcount
        = d.refcount + implCount (w.live.filter (fun x => decide (x.hid ≠ lh.hid))) d.id
    intro d hd
    rw [hops] at hd
    have hne : d.id ≠ t := by
      have := List.of_mem_filter hd
      simpa using this
    have hic := implCount_remove d.id w.live lh hmem hw.hidsNodup
    have hcond : ¬ (lh.entryId = d.id) := by
      rw [hlh]
      intro hc
      exact hne hc.symm
    simp only [decide_eq_false hcond, Bool.false_and, Bool.false_eq_true, if_false,
      Nat.add_zero] at hic
    rw [hw.weak d (List.mem_of_mem_filter hd)]
    omega

/-- A regDef step preserves the invariant. -/
lemma inv_regDef (w : World) (schema : FunctionSchema) (hw : Inv w) :
    Inv (stepCmd w (Cmd.regDef schema)) := by
  cases hreg : w.disp.registerDef schema with
  | error e =>
    simpa [stepCmd, hreg] using hw
  | ok r =>
    obtain ⟨s2, op, evs⟩ := r
    obtain ⟨s1, hfr, hs2, d, hfe, hevs⟩ := registerDef_ok hreg
    have hstep : stepCmd w (Cmd.regDef schema)
        = { disp := s2,
            live := w.live ++ [{ hid := w.nextHid, entryId := op.entryId,
                                 opName := schema.operator_name, kind := .defKind }],
            nextHid := w.nextHid + 1 } := by
      simp [stepCmd, hreg]
    rw [hstep]
    rcases findOrRegisterWithSchema_ok_cases hfr with
      ⟨hfs, f, hfid, hfname, hfrc, hfwrc, hops1, htbl1, hnext1⟩ |
      ⟨hfs, hopEq, hops1, htbl1, hnext1⟩
    · obtain ⟨d0, hd0, hd0id, hd0n⟩ := findSchema_some_inv hw.tbl hfs
      apply inv_update_append hw op.entryId (fun x => bumpBoth (f x))
      · intro x hx hxt
        refine ⟨?_, ?_, ?_, ?_⟩
        · show (bumpBoth (f x)).id = x.id
          simp [bumpBoth, hfid x]
        · show (bumpBoth (f x)).op.opName = x.op.opName
          simp [bumpBoth, hfname x]
        · show (bumpBoth (f x)).refcount = x.refcount + _
          simp [bumpBoth, hfrc x, LiveHandle.isDef]
        · show (bumpBoth (f x)).weak_refcount = x.weak_refcount + 1
          simp [bumpBoth, hfwrc x]
      · rfl
      · rfl
      · exact ⟨d0, hd0, hd0id, hd0n⟩
      · rw [hs2]
        show (s1.operators.map fun x => if x.id = op.entryId then bumpBoth x else x)
            = List.map (fun x => if x.id = op.entryId then bumpBoth (f x) else x)
              w.disp.operators
        rw [hops1, guard_map_comp _ _ _ _ hfid]
      · rw [hs2]
        show s1.operatorLookupTable = w.disp.operatorLookupTable
        exact htbl1
      · rw [hs2]
        show s1.nextEntryId = w.disp.nextEntryId
        exact hnext1
    · have hopId : op.entryId = w.disp.nextEntryId := by rw [hopEq]
      apply inv_append_fresh hw (bumpBoth (freshSchemaEntry schema w.disp.nextEntryId))
      · show (bumpBoth (freshSchemaEntry schema w.disp.nextEntryId)).id = w.disp.nextEntryId
        rfl
      · show w.disp.findSchema
          (bumpBoth (freshSchemaEntry schema w.disp.nextEntryId)).op.opName = none
        exact hfs
      · show (bumpBoth (freshSchemaEntry schema w.disp.nextEntryId)).refcount = _
        simp [bumpBoth, freshSchemaEntry, LiveHandle.isDef]
      · show (bumpBoth (freshSchemaEntry schema w.disp.nextEntryId)).weak_refcount = _
        simp [bumpBoth, freshSchemaEntry, LiveHandle.isDef]
      · show op.entryId = (bumpBoth (freshSchemaEntry schema w.disp.nextEntryId)).id
        exact hopId
      · rfl
      · show schema.operator_name
          = (bumpBoth (freshSchemaEntry schema w.disp.nextEntryId)).op.opName
        rfl
      · rw [hs2]
        show (s1.operators.map _) = _
        rw [hops1, hopId, List.map_append]
        congr 1
        · refine (List.map_congr_left ?_).trans (List.map_id' _)
          intro x hx
          rw [if_neg]
          intro hc
          have := hw.idsLt x hx
          omega
        · simp [freshSchemaEntry]
      · rw [hs2]
        show s1.operatorLookupTable = _
        rw [htbl1]
        rfl
      · rw [hs2]
        show s1.nextEntryId = _
        rw [hnext1]

/-- A regImpl step preserves the invariant. -/
lemma inv_regImpl (w : World) (n : OperatorName) (key : Option DispatchKey)
    (kf : KernelFunction) (hw : Inv w) :
    Inv (stepCmd w (Cmd.regImpl n key kf)) := by
  cases hreg : w.disp.registerImpl n key kf with
  | error e =>
    simpa [stepCmd, hreg] using hw
  | ok r =>
    obtain ⟨s2, op, tok, evs⟩ := r
    obtain ⟨hevs, s1, d, hfrn, hfe, hs2, htok⟩ := registerImpl_ok hreg
    have hstep : stepCmd w (Cmd.regImpl n key kf)
        = { disp := s2,
            live := w.live ++ [{ hid := w.nextHid, entryId := op.entryId,
                                 opName := n, kind := .implKind key tok }],
            nextHid := w.nextHid + 1 } := by
      simp [stepCmd, hreg]
    rw [hstep]
    rcases findOrRegisterWithName_cases w.disp n with ⟨op', hfs, heq⟩ | ⟨hfs, heq⟩
    · have hpair : (s1, op) = (w.disp, op') := hfrn.symm.trans heq
      injection hpair with h1 h2
      subst h1
      subst h2
      obtain ⟨hdm, hdid⟩ := findEntry_some hfe
      obtain ⟨d0, hd0, hd0id, hd0n⟩ := findSchema_some_inv hw.tbl hfs
      apply inv_update_append hw op.entryId
        (fun x =>
          { x with
              op := (d.op.registerKernel key kf).1,
              weak_refcount := x.weak_refcount + 1 })
      · intro x hx hxt
        have hxd : x = d := eq_of_ids_nodup hw.idsNodup hx hdm (by rw [hxt, hdid])
        subst hxd
        refine ⟨rfl, rfl, ?_, rfl⟩
        simp [LiveHandle.isDef, OperatorEntry.registerKernel]
      · rfl
      · rfl
      · exact ⟨d0, hd0, hd0id, hd0n⟩
      · rw [hs2]
        rfl
      · rw [hs2]
        rfl
      · rw [hs2]
        rfl
    · have hpair : (s1, op)
          = ({ w.disp with
                operators := w.disp.operators ++ [freshNameEntry n w.disp.nextEntryId],
                operatorLookupTable :=
                  w.disp.operatorLookupTable ++ [(n, w.disp.nextEntryId)],
                nextEntryId := w.disp.nextEntryId + 1 },
             { entryId := w.disp.nextEntryId }) := hfrn.symm.trans heq
      injection hpair with h1 h2
      subst h1
      have hopId : op.entryId = w.disp.nextEntryId := by rw [h2]
      have hdfresh : d = freshNameEntry n w.disp.nextEntryId := by
        have hnone : w.disp.operators.find?
            (fun x => decide (x.id = op.entryId)) = none := by
          rw [List.find?_eq_none]
          intro x hx
          have := hw.idsLt x hx
          simp only [decide_eq_true_eq]
          omega
        have hval : ((w.disp.operators ++ [freshNameEntry n w.disp.nextEntryId]).find?
            (fun x => decide (x.id = op.entryId)))
            = some (freshNameEntry n w.disp.nextEntryId) := by
          rw [List.find?_append, hnone]
          simp [freshNameEntry, hopId]
        have hfe2 : ((w.disp.operators ++ [freshNameEntry n w.disp.nextEntryId]).find?
            (fun x => decide (x.id = op.entryId))) = some d := hfe
        rw [hval] at hfe2
        injection hfe2 with h3
        exact h3.symm
      apply inv_append_fresh hw
        ((fun x =>
          ({ x with
              op := (d.op.registerKernel key kf).1,
              weak_refcount := x.weak_refcount + 1 } : OperatorDef))
          (freshNameEntry n w.disp.nextEntryId))
      · show ((freshNameEntry n w.disp.nextEntryId).id : Nat) = w.disp.nextEntryId
        rfl
      · show w.disp.findSchema (d.op.registerKernel key kf).1.opName = none
        rw [hdfresh]
        exact hfs
      · show (freshNameEntry n w.disp.nextEntryId).refcount = _
        simp [freshNameEntry, LiveHandle.isDef]
      · show (freshNameEntry n w.disp.nextEntryId).weak_refcount + 1
          = (freshNameEntry n w.disp.nextEntryId).refcount + _
        simp [freshNameEntry, LiveHandle.isDef]
      · show op.entryId = (freshNameEntry n w.disp.nextEntryId).id
        exact hopId
      · rfl
      · show n = (d.op.registerKernel key kf).1.opName
        rw [hdfresh]
        rfl
      · rw [hs2]
        show ((w.disp.operators ++ [freshNameEntry n w.disp.nextEntryId]).map _) = _
        rw [hopId, List.map_append]
        congr 1
        · refine (List.map_congr_left ?_).trans (List.map_id' _)
          intro x hx
          rw [if_neg]
          intro hc
          have := hw.idsLt x hx
          omega
        · simp [freshNameEntry]
      · rw [hs2]
        show w.disp.operatorLookupTable ++ [(n, w.disp.nextEntryId)] = _
        rw [hdfresh]
        rfl
      · rw [hs2]
        rfl

/-- A dispose step preserves the invariant. -/
lemma inv_dispose (w : World) (hid : Nat) (hw : Inv w) :
    Inv (stepCmd w (Cmd.dispose hid)) := by
  cases hfind : w.live.find? (fun x => decide (x.hid = hid)) with
  | none => simpa [stepCmd, hfind] using hw
  | some lh =>
    have hmem : lh ∈ w.live := List.mem_of_find?_eq_some hfind
    have hstep : stepCmd w (Cmd.dispose hid) = disposeLive w lh := by
      simp [stepCmd, hfind]
    rw [hstep]
    obtain ⟨d0, hd0, hd0id, hd0n⟩ := hw.liveValid lh hmem
    cases hkind : lh.kind with
    | defKind =>
      cases hdr : w.disp.deregisterDef { entryId := lh.entryId } lh.opName with
      | error e =>
        simpa [disposeLive, hkind, hdr, Except.map] using hw
      | ok pr =>
        obtain ⟨s2, evs⟩ := pr
        have hdl : disposeLive w lh
            = { w with
                  disp := s2,
                  live := w.live.filter (fun x => decide (x.hid ≠ lh.hid)) } := by
          simp [disposeLive, hkind, hdr, Except.map]
        rw [hdl]
        obtain ⟨d, hfe, hdname, hrc, hwrc, hevs, hs2⟩ := deregisterDef_ok hdr
        dsimp only at hfe hevs hs2
        obtain ⟨hdm, hdid⟩ := findEntry_some hfe
        have hisdef : lh.isDef = true := by simp [LiveHandle.isDef, hkind]
        by_cases hw0 : d.weak_refcount - 1 = 0
        · rw [if_pos hw0] at hs2
          have hhc : handleCount w.live lh.entryId = 1 := by
            rw [← hdid]
            have h1 := hw.strong d hdm
            have h2 := hw.weak d hdm
            have h3 := handleCount_split w.live d.id
            omega
          apply inv_remove_erase hw lh hmem lh.entryId rfl hhc
          · rw [hs2]
            exact guard_map_filter_ne w.disp.operators lh.entryId dropBoth (fun x => rfl)
          · rw [hs2]
            show w.disp.operatorLookupTable.filter (fun p => decide (p.1 ≠ lh.opName))
              = (w.disp.operators.filter (fun x => decide (x.id ≠ lh.entryId))).map keyOf
            rw [hw.tbl, List.filter_map]
            congr 1
            show w.disp.operators.filter (fun x => decide (x.op.opName ≠ lh.opName))
              = w.disp.operators.filter (fun x => decide (x.id ≠ lh.entryId))
            have hfi := filter_name_eq_filter_id hw.idsNodup hw.namesNodup hd0
            rw [hd0n, hd0id] at hfi
            exact hfi
          · rw [hs2]
            rfl
        · rw [if_neg hw0] at hs2
          apply inv_remove_update hw lh hmem lh.entryId rfl dropBoth
          · intro x hx hxt
            refine ⟨rfl, rfl, ?_, rfl⟩
            simp [dropBoth, hisdef]
          · rw [hs2]
            rfl
          · rw [hs2]
            rfl
          · rw [hs2]
            rfl
    | implKind key token =>
      cases hdr : w.disp.disposeImplHandle { entryId := lh.entryId } lh.opName key token with
      | error e =>
        simpa [disposeLive, hkind, hdr] using hw
      | ok s2 =>
        have hdl : disposeLive w lh
            = { w with
                  disp := s2,
                  live := w.live.filter (fun x => decide (x.hid ≠ lh.hid)) } := by
          simp [disposeLive, hkind, hdr]
        rw [hdl]
        obtain ⟨d, hfe, hderi⟩ := disposeImplHandle_ok hdr
        dsimp only at hfe hderi
        obtain ⟨d2, hfe2, hd2name, hd2w, hs2⟩ := deregisterImpl_ok hderi
        dsimp only at hfe2 hs2
        obtain ⟨hdm, hdid⟩ := findEntry_some hfe
        have hfu := findEntry_updateEntry w.disp lh.entryId
          (fun x => { x with op := x.op.deregisterKernel key token }) (fun x => rfl)
        rw [hfu, hfe] at hfe2
        simp only [Option.map_some', if_pos hdid, Option.some.injEq] at hfe2
        have hd2 : d2 = { d with op := d.op.deregisterKernel key token } := hfe2.symm
        have hd2req : d2.refcount = d.refcount := by rw [hd2]
        have hd2weq : d2.weak_refcount = d.weak_refcount := by rw [hd2]
        have hisdef : lh.isDef = false := by simp [LiveHandle.isDef, hkind]
        have hcomp := updateEntry_updateEntry w.disp lh.entryId
          (fun e => { e with weak_refcount := e.weak_refcount - 1 })
          (fun x => { x with op := x.op.deregisterKernel key token }) (fun x => rfl)
        by_cases hw0 : d2.weak_refcount - 1 = 0
        · rw [if_pos hw0, hcomp] at hs2
          have hhc : handleCount w.live lh.entryId = 1 := by
            rw [← hdid]
            have h1 := hw.strong d hdm
            have h2 := hw.weak d hdm
            have h3 := handleCount_split w.live d.id
            omega
          apply inv_remove_erase hw lh hmem lh.entryId rfl hhc
          · rw [hs2]
            exact guard_map_filter_ne w.disp.operators lh.entryId _ (fun x => rfl)
          · rw [hs2]
            show w.disp.operatorLookupTable.filter (fun p => decide (p.1 ≠ lh.opName))
              = (w.disp.operators.filter (fun x => decide (x.id ≠ lh.entryId))).map keyOf
            rw [hw.tbl, List.filter_map]
            congr 1
            show w.disp.operators.filter (fun x => decide (x.op.opName ≠ lh.opName))
              = w.disp.operators.filter (fun x => decide (x.id ≠ lh.entryId))
            have hfi := filter_name_eq_filter_id hw.idsNodup hw.namesNodup hd0
            rw [hd0n, hd0id] at hfi
            exact hfi
          · rw [hs2]
            rfl
        · rw [if_neg hw0, hcomp] at hs2
          apply inv_remove_update hw lh hmem lh.entryId rfl
            (fun y =>
              (fun e =>
                ({ e with weak_refcount := e.weak_refcount - 1 } : OperatorDef))
                ((fun x =>
                  ({ x with op := x.op.deregisterKernel key token } : OperatorDef)) y))
          · intro x hx hxt
            refine ⟨rfl, rfl, ?_, rfl⟩
            simp [hisdef]
          · rw [hs2]
            rfl
          · rw [hs2]
            rfl
          · rw [hs2]
            rfl

/-- registerFallback never touches the operator list, the lookup table or
the entry identity counter. -/
lemma registerFallback_ok_fields {s : Dispatcher} {k : DispatchKey} {kf : KernelFunction}
    {s2 : Dispatcher} (h : s.registerFallback k kf = .ok s2) :
    s2.operators = s.operators ∧ s2.operatorLookupTable = s.operatorLookupTable ∧
    s2.nextEntryId = s.nextEntryId := by
  simp only [Dispatcher.registerFallback] at h
  split at h
  · simp at h
  · split at h
    · injection h with h1
      rw [← h1]
      exact ⟨rfl, rfl, rfl⟩
    · injection h with h1
      rw [← h1]
      exact ⟨rfl, rfl, rfl⟩

/-- A regFallback step preserves the invariant. -/
lemma inv_regFallback (w : World) (k : DispatchKey) (kf : KernelFunction) (hw : Inv w) :
    Inv (stepCmd w (Cmd.regFallback k kf)) := by
  cases hreg : w.disp.registerFallback k kf with
  | error e => simpa [stepCmd, hreg] using hw
  | ok s2 =>
    obtain ⟨hops, htbl, hnext⟩ := registerFallback_ok_fields hreg
    have hstep : stepCmd w (Cmd.regFallback k kf) = { w with disp := s2 } := by
      simp [stepCmd, hreg]
    rw [hstep]
    refine ⟨?_, ?_, ?_, ?_, ?_, ?_, ?_, ?_, ?_⟩
    · show s2.operatorLookupTable = s2.operators.map keyOf
      rw [htbl, hops]
      exact hw.tbl
    · show (s2.operators.map OperatorDef.id).Nodup
      rw [hops]
      exact hw.idsNodup
    · show (s2.operators.map (fun d => d.op.opName)).Nodup
      rw [hops]
      exact hw.namesNodup
    · show ∀ d ∈ s2.operators, d.id < s2.nextEntryId
      rw [hops, hnext]
      exact hw.idsLt
    · exact hw.hidsNodup
    · exact hw.hidsLt
    · show ∀ lh ∈ w.live, ∃ d ∈ s2.operators, d.id = lh.entryId ∧ d.op.opName = lh.opName
      rw [hops]
      exact hw.liveValid
    · show ∀ d ∈ s2.operators, d.refcount = defCount w.live d.id
      rw [hops]
      exact hw.strong
    · show ∀ d ∈ s2.operators, d.weak_refcount = d.refcount + implCount w.live d.id
      rw [hops]
      exact hw.weak

/-- An addListener step preserves the invariant. -/
lemma inv_addListener (w : World) (l : Nat) (hw : Inv w) :
    Inv (stepCmd w (Cmd.addListener l)) :=
  ⟨hw.tbl, hw.idsNodup, hw.namesNodup, hw.idsLt, hw.hidsNodup, hw.hidsLt,
   hw.liveValid, hw.strong, hw.weak⟩

/-- Every client step preserves the invariant. -/
lemma inv_step (w : World) (c : Cmd) (hw : Inv w) : Inv (stepCmd w c) := by
  cases c with
  | regDef schema => exact inv_regDef w schema hw
  | regImpl n key kf => exact inv_regImpl w n key kf hw
  | dispose hid => exact inv_dispose w hid hw
  | regFallback k kf => exact inv_regFallback w k kf hw
  | addListener l => exact inv_addListener w l hw

/-- The initial world satisfies the invariant. -/
lemma inv_init : Inv World.init :=
  ⟨rfl, List.nodup_nil, List.nodup_nil,
   fun d hd => absurd hd (List.not_mem_nil d),
   List.nodup_nil,
   fun lh h => absurd h (List.not_mem_nil lh),
   fun lh h => absurd h (List.not_mem_nil lh),
   fun d h => absurd h (List.not_mem_nil d),
   fun d h => absurd h (List.not_mem_nil d)⟩

lemma inv_foldl (cs : List Cmd) : ∀ w, Inv w → Inv (cs.foldl stepCmd w) := by
  induction cs with
  | nil => exact fun w hw => hw
  | cons c cs ih => exact fun w hw => ih _ (inv_step w c hw)

/-- Every reachable world satisfies the invariant. -/
lemma inv_run (cs : List Cmd) : Inv (runCmds cs) :=
  inv_foldl cs World.init inv_init

/-! ## Evaluation lemmas for the claim proofs -/

/-- Evaluating findOrRegisterWithSchema_ on a found entry with a structurally
equal stored schema. -/
lemma findOrRegisterWithSchema_eval {s : Dispatcher} {h : OperatorHandle}
    {d : OperatorDef} {s0 schema' : FunctionSchema}
    (hfs : s.findSchema schema'.operator_name = some h)
    (hfe : s.findEntry h.entryId = some d)
    (hsch : d.op.schema = some s0)
    (hstq : FunctionSchema.structEq s0 schema' = true) :
    s.findOrRegisterWithSchema schema'
      = (if schema'.isDefaultAliasAnalysisKind then Except.ok (s, h)
         else if s0.isDefaultAliasAnalysisKind then
           Except.ok (s.updateEntry h.entryId
             (fun e => { e with op := e.op.updateSchemaAliasAnalysis schema'.aliasKind }), h)
         else if s0.aliasKind = schema'.aliasKind then Except.ok (s, h)
         else Except.error (.aliasAnalysisKindMismatch s0.aliasKind schema'.aliasKind)) := by
  simp only [Dispatcher.findOrRegisterWithSchema, hfs, hfe, hsch, hstq]
  rw [if_neg]
  simp [hstq]

/-- Evaluating findOrRegisterWithSchema_ on a found entry with a structurally
different stored schema: the configuration conflict error. -/
lemma findOrRegisterWithSchema_mismatch {s : Dispatcher} {h : OperatorHandle}
    {d : OperatorDef} {s0 schema' : FunctionSchema}
    (hfs : s.findSchema schema'.operator_name = some h)
    (hfe : s.findEntry h.entryId = some d)
    (hsch : d.op.schema = some s0)
    (hstq : FunctionSchema.structEq s0 schema' = false) :
    s.findOrRegisterWithSchema schema' = .error (.schemaMismatch s0 schema') := by
  simp only [Dispatcher.findOrRegisterWithSchema, hfs, hfe, hsch, hstq]
  simp

/-- Evaluating registerDef given the result of find or register and the
target entry. -/
lemma registerDef_eval {s : Dispatcher} {schema : FunctionSchema} {s1 : Dispatcher}
    {h : OperatorHandle} {d1 : OperatorDef}
    (hres : s.findOrRegisterWithSchema schema = .ok (s1, h))
    (hfe1 : s1.findEntry h.entryId = some d1) (hd1 : d1.id = h.entryId) :
    s.registerDef schema
      = .ok (s1.updateEntry h.entryId bumpBoth, h,
             if d1.refcount + 1 = 1 then
               [(RegEvent.registered h, s1.updateEntry h.entryId bumpBoth)]
             else []) := by
  have hff := findEntry_updateEntry s1 h.entryId bumpBoth (fun x => rfl)
  rw [hfe1] at hff
  simp only [Option.map_some', if_pos hd1] at hff
  simp only [Dispatcher.registerDef, hres, hff]
  rfl

/-- Evaluating deregisterDef_ when the internal assertions hold. -/
lemma deregisterDef_eval {s : Dispatcher} {op : OperatorHandle} {n : OperatorName}
    {d : OperatorDef}
    (hfe : s.findEntry op.entryId = some d) (hn : d.op.opName = n)
    (hrc : d.refcount ≠ 0) (hwrc : d.weak_refcount ≠ 0) :
    s.deregisterDef op n
      = .ok (if d.weak_refcount - 1 = 0 then
               (s.updateEntry op.entryId dropBoth).eraseEntry op.entryId n
             else s.updateEntry op.entryId dropBoth,
             if d.refcount - 1 = 0 then
               [(RegEvent.deregistered op, s.updateEntry op.entryId dropBoth)]
             else []) := by
  simp only [Dispatcher.deregisterDef, hfe]
  rw [if_neg (by simp [hn]), if_neg hrc, if_neg hwrc]
  by_cases hw0 : d.weak_refcount - 1 = 0
  · rw [if_pos hw0, if_pos hw0]
  · rw [if_neg hw0, if_neg hw0]

/-- Evaluating deregisterImpl_ when the internal assertions hold. -/
lemma deregisterImpl_eval {s : Dispatcher} {op : OperatorHandle} {n : OperatorName}
    {d : OperatorDef}
    (hfe : s.findEntry op.entryId = some d) (hn : d.op.opName = n)
    (hwrc : d.weak_refcount ≠ 0) :
    s.deregisterImpl op n
      = .ok (if d.weak_refcount - 1 = 0 then
               (s.updateEntry op.entryId
                 (fun e => { e with weak_refcount := e.weak_refcount - 1 })).eraseEntry
                 op.entryId n
             else s.updateEntry op.entryId
               (fun e => { e with weak_refcount := e.weak_refcount - 1 })) := by
  simp only [Dispatcher.deregisterImpl, hfe]
  rw [if_neg (by simp [hn]), if_neg hwrc]
  by_cases hw0 : d.weak_refcount - 1 = 0
  · rw [if_pos hw0, if_pos hw0]
  · rw [if_neg hw0, if_neg hw0]

/-- After erasing, the entry can no longer be resolved by its identity. -/
lemma findEntry_eraseEntry (s : Dispatcher) (t : Nat) (n : OperatorName) :
    (s.eraseEntry t n).findEntry t = none := by
  simp only [Dispatcher.findEntry, Dispatcher.eraseEntry]
  rw [List.find?_eq_none]
  intro x hx
  have := List.of_mem_filter hx
  simp only [decide_eq_true_eq] at this ⊢
  simp [this]

/-- After erasing, the name can no longer be resolved by the lookup table. -/
lemma findSchema_eraseEntry (s : Dispatcher) (t : Nat) (n : OperatorName) :
    (s.eraseEntry t n).findSchema n = none := by
  simp only [Dispatcher.findSchema, Dispatcher.eraseEntry, Option.map_eq_none']
  rw [List.find?_eq_none]
  intro p hp
  have := List.of_mem_filter hp
  simp only [decide_eq_true_eq] at this ⊢
  simp [this]

/-- In a world with pairwise distinct live handle identifiers, searching the
live list for the identifier of a live handle yields that handle. -/
lemma find?_hid_eq {live : List LiveHandle} {lh : LiveHandle}
    (hmem : lh ∈ live) (hnd : (live.map LiveHandle.hid).Nodup) :
    live.find? (fun x => decide (x.hid = lh.hid)) = some lh := by
  cases hf : live.find? (fun x => decide (x.hid = lh.hid)) with
  | none =>
    rw [List.find?_eq_none] at hf
    have := hf lh hmem
    simp at this
  | some x =>
    have hx : x ∈ live := List.mem_of_find?_eq_some hf
    have hxe : x.hid = lh.hid := by
      have := List.find?_some hf
      simpa using this
    have : x = lh := List.inj_on_of_nodup_map hnd hx hmem hxe
    rw [this]

/-! ## Concrete values used by the claim witnesses -/

def nmAdd : OperatorName := { name := "add", overload_name := "" }

def nmMul : OperatorName := { name := "mul", overload_name := "" }

def schAdd : FunctionSchema :=
  { operator_name := nmAdd, core := 1, aliasKind := .fromSchema }

def schMul : FunctionSchema :=
  { operator_name := nmMul, core := 2, aliasKind := .fromSchema }

def kCpu : KernelFunction := { code := 7, fallsThrough := false }

def hAdd : OperatorHandle := { entryId := 0 }

/-- The dispatcher right after registering the add definition on a fresh
dispatcher. -/
def dispAdd : Dispatcher :=
  { operators := [bumpBoth (freshSchemaEntry schAdd 0)],
    operatorLookupTable := [(nmAdd, 0)],
    backendFallbackKernels := [],
    backendsWithoutFallthrough := DispatchKeySet.FULL,
    listeners := [],
    nextEntryId := 1 }

def cxKey : DispatchKey := ⟨1, by decide⟩

def cxKernel : KernelFunction := { code := 0, fallsThrough := false }

/-! ## The claims -/

/-- C1: in every reachable registry state, every OperatorEntry satisfies
0 ≤ strong_refcount ≤ weak_refcount (the lower bound holds since the counts
are natural numbers), the strong refcount equals the number of currently
live definition registration handles for the entry, and the weak refcount
equals the strong refcount plus the number of currently live implementation
registration handles. Reachability quantifies over arbitrary command lists,
so every operation (registerDef, registerImpl and both deregistration
paths) preserves the property. -/
theorem C1_refcount_invariant :
    ∀ (cs : List Cmd), ∀ d ∈ (runCmds cs).disp.operators,
      d.refcount = defCount (runCmds cs).live d.id ∧
      d.weak_refcount = d.refcount + implCount (runCmds cs).live d.id ∧
      d.refcount ≤ d.weak_refcount := by
  intro cs d hd
  have hw := inv_run cs
  have h1 := hw.strong d hd
  have h2 := hw.weak d hd
  exact ⟨h1, h2, by omega⟩

theorem C1_witness :
    (bumpBoth (freshSchemaEntry schAdd 0)) ∈ (runCmds [Cmd.regDef schAdd]).disp.operators ∧
    ((bumpBoth (freshSchemaEntry schAdd 0)).refcount
        = defCount (runCmds [Cmd.regDef schAdd]).live (bumpBoth (freshSchemaEntry schAdd 0)).id ∧
      (bumpBoth (freshSchemaEntry schAdd 0)).weak_refcount
        = (bumpBoth (freshSchemaEntry schAdd 0)).refcount
          + implCount (runCmds [Cmd.regDef schAdd]).live (bumpBoth (freshSchemaEntry schAdd 0)).id ∧
      (bumpBoth (freshSchemaEntry schAdd 0)).refcount
        ≤ (bumpBoth (freshSchemaEntry schAdd 0)).weak_refcount) :=
  ⟨by decide, C1_refcount_invariant [Cmd.regDef schAdd] _ (by decide)⟩

/-- C10: reportError never produces a usable dispatch result (in this
embedding it returns a DispatchError value, modelling the [[noreturn]]
TORCH_CHECK(false, ...) failure). It distinguishes the undefined (no tag)
case from a concrete tag with no satisfying kernel by emitting different
error constructors, and both cases carry the enumeration of the operator
table's currently available backends (listAllDispatchKeys). -/
theorem C10_reportError_spec :
    ∀ (t : DispatchTable) (k : DispatchKey),
      Dispatcher.reportError t k
        = (if k = DispatchKey.Undefined then
             DispatchError.noTensorArguments t.operatorName t.listAllDispatchKeys
           else
             DispatchError.noKernelForBackend t.operatorName k t.listAllDispatchKeys) ∧
      (Dispatcher.reportError t k).availableBackends = some t.listAllDispatchKeys ∧
      ((Dispatcher.reportError t k).isNoTensorArguments = true ↔ k = DispatchKey.Undefined) := by
  intro t k
  by_cases hk : k = DispatchKey.Undefined
  · simp [Dispatcher.reportError, hk, DispatchError.availableBackends,
      DispatchError.isNoTensorArguments]
  · simp [Dispatcher.reportError, hk, DispatchError.availableBackends,
      DispatchError.isNoTensorArguments]

/-- C7: addRegistrationListener first replays the on registered event to the
new listener, one event per currently registered operator in entry list
order (the replayed handle list is exactly the operator list in order), and
only then appends the listener to the listener list that receives future
events; the registry state is otherwise untouched. In particular, after
registering operators X and Y, a newly added listener receives exactly the
replayed registered events for X and Y (entry identities 0 and 1, in
registration order) before it can observe any later live event, since it
joins the recipient list only after the replay. -/
theorem C7_addListener_replay :
    (∀ (s : Dispatcher) (l : Nat),
      (s.addRegistrationListener l).2
        = s.operators.map (fun d => { entryId := d.id }) ∧
      (s.addRegistrationListener l).1.listeners = s.listeners ++ [l] ∧
      (s.addRegistrationListener l).1.operators = s.operators ∧
      (s.addRegistrationListener l).1.operatorLookupTable = s.operatorLookupTable)
    ∧
    ((runCmds [Cmd.regDef schAdd, Cmd.regDef schMul]).disp.addRegistrationListener 7).2
      = [{ entryId := 0 }, { entryId := 1 }] := by
  constructor
  · intro s l
    exact ⟨rfl, rfl, rfl, rfl⟩
  · decide

/-- C4 counterexample: registering a NON fallthrough fallback kernel for tag
cxKey on a fresh dispatcher succeeds, and afterwards cxKey is still a member
of the backendsWithoutFallthrough bitset. The claim as stated predicts the
tag would be cleared from the bitset in exactly this situation (kernel not a
fallthrough); the code clears it only when the kernel IS a fallthrough. -/
theorem C4_counterexample :
    cxKernel.isFallthrough = false ∧
    ((Dispatcher.init.registerFallback cxKey cxKernel).toOption.map
      (fun s => s.backendsWithoutFallthrough.has cxKey)) = some true := by
  constructor
  · rfl
  · decide

/-- C4 amended: registerFallback fails with the duplicate fallback error
when a fallback kernel already exists for the tag; otherwise it installs
the kernel and, if the kernel IS a fallthrough, removes the tag from the
backendsWithoutFallthrough bitset (a non fallthrough kernel leaves the
bitset unchanged). -/
theorem C4_amended_registerFallback :
    ∀ (s : Dispatcher) (k : DispatchKey) (kf : KernelFunction),
      ((s.backendFallbackKernels.find? (fun p => decide (p.1 = k))).isSome = true →
        s.registerFallback k kf = .error (.duplicateFallback k)) ∧
      ((s.backendFallbackKernels.find? (fun p => decide (p.1 = k))).isSome = false →
        ∃ s2, s.registerFallback k kf = .ok s2 ∧
          (k, kf) ∈ s2.backendFallbackKernels ∧
          s2.backendsWithoutFallthrough
            = (if kf.isFallthrough then s.backendsWithoutFallthrough.remove k
               else s.backendsWithoutFallthrough)) := by
  intro s k kf
  constructor
  · intro hdup
    simp [Dispatcher.registerFallback, hdup]
  · intro habs
    by_cases hft : kf.isFallthrough = true
    · refine ⟨{ s with
          backendFallbackKernels := s.backendFallbackKernels ++ [(k, kf)],
          backendsWithoutFallthrough := s.backendsWithoutFallthrough.remove k },
        ?_, ?_, ?_⟩
      · simp [Dispatcher.registerFallback, habs, hft]
      · simp
      · simp [hft]
    · have hft2 : kf.isFallthrough = false := by
        revert hft
        cases kf.isFallthrough <;> simp
      refine ⟨{ s with
          backendFallbackKernels := s.backendFallbackKernels ++ [(k, kf)] },
        ?_, ?_, ?_⟩
      · simp [Dispatcher.registerFallback, habs, hft2]
      · simp
      · simp [hft2]

theorem C4_witness :
    ((Dispatcher.init.backendFallbackKernels.find?
        (fun p => decide (p.1 = cxKey))).isSome = false) ∧
    (∃ s2, Dispatcher.init.registerFallback cxKey cxKernel = .ok s2 ∧
      (cxKey, cxKernel) ∈ s2.backendFallbackKernels ∧
      s2.backendsWithoutFallthrough
        = (if cxKernel.isFallthrough then
             Dispatcher.init.backendsWithoutFallthrough.remove cxKey
           else Dispatcher.init.backendsWithoutFallthrough)) :=
  ⟨by decide, (C4_amended_registerFallback Dispatcher.init cxKey cxKernel).2 (by decide)⟩

/-- C3: when a name already resolves to an entry carrying a concrete stored
signature, calling registerDef with a structurally different signature for
that name fails with the configuration conflict error (schemaMismatch), and
the failed step leaves the registry world completely unchanged (the entry,
its signature, kernels and refcounts included); calling registerDef with
the identical signature succeeds and returns the very same handle (the same
entry), merely bumping that entry's refcounts. -/
theorem C3_schema_conflict :
    ∀ (s : Dispatcher) (h : OperatorHandle) (d : OperatorDef) (s0 schema' : FunctionSchema),
      s.findSchema schema'.operator_name = some h →
      s.findEntry h.entryId = some d →
      d.op.schema = some s0 →
      (FunctionSchema.structEq s0 schema' = false →
        s.registerDef schema' = .error (.schemaMismatch s0 schema') ∧
        ∀ (w : World), w.disp = s → stepCmd w (Cmd.regDef schema') = w) ∧
      (s0 = schema' →
        ∃ evs, s.registerDef schema' = .ok (s.updateEntry h.entryId bumpBoth, h, evs)) := by
  intro s h d s0 schema' hfs hfe hsch
  constructor
  · intro hne
    have herr : s.registerDef schema' = .error (.schemaMismatch s0 schema') := by
      simp only [Dispatcher.registerDef, findOrRegisterWithSchema_mismatch hfs hfe hsch hne]
    refine ⟨herr, ?_⟩
    intro w hww
    simp [stepCmd, hww, herr]
  · intro hsame
    subst hsame
    have hres : s.findOrRegisterWithSchema s0 = .ok (s, h) := by
      rw [findOrRegisterWithSchema_eval hfs hfe hsch (by simp [FunctionSchema.structEq])]
      by_cases hda : s0.isDefaultAliasAnalysisKind = true
      · simp [hda]
      · simp [hda]
    obtain ⟨hdm, hdid⟩ := findEntry_some hfe
    exact ⟨_, registerDef_eval hres hfe hdid⟩

def schBad : FunctionSchema :=
  { operator_name := nmAdd, core := 99, aliasKind := .fromSchema }

theorem C3_witness :
    dispAdd.findSchema schBad.operator_name = some hAdd ∧
    dispAdd.findEntry hAdd.entryId = some (bumpBoth (freshSchemaEntry schAdd 0)) ∧
    (bumpBoth (freshSchemaEntry schAdd 0)).op.schema = some schAdd ∧
    FunctionSchema.structEq schAdd schBad = false ∧
    (dispAdd.registerDef schBad = .error (.schemaMismatch schAdd schBad) ∧
      ∀ (w : World), w.disp = dispAdd → stepCmd w (Cmd.regDef schBad) = w) :=
  ⟨by decide, by decide, by decide, by decide,
   (C3_schema_conflict dispAdd hAdd (bumpBoth (freshSchemaEntry schAdd 0)) schAdd schBad
     (by decide) (by decide) (by decide)).1 (by decide)⟩

/-- C5: for a registerDef that finds an existing entry of the same name with
a structurally equal signature, the alias analysis kind resolves as follows:
if the new kind is default and the stored one concrete, registration
succeeds and the entry keeps the stored concrete kind; if the stored kind is
default and the new one concrete, registration succeeds and the entry
adopts the new concrete kind; if both are concrete, registration succeeds
exactly when the two kinds are equal (keeping the kind), and otherwise
fails with the alias analysis kind mismatch error. -/
theorem C5_alias_resolution :
    ∀ (s : Dispatcher) (h : OperatorHandle) (d : OperatorDef) (s0 schema' : FunctionSchema),
      s.findSchema schema'.operator_name = some h →
      s.findEntry h.entryId = some d →
      d.op.schema = some s0 →
      FunctionSchema.structEq s0 schema' = true →
      (schema'.isDefaultAliasAnalysisKind = true → s0.isDefaultAliasAnalysisKind = false →
        ∃ evs, s.registerDef schema' = .ok (s.updateEntry h.entryId bumpBoth, h, evs) ∧
          ∃ d2 sch2, (s.updateEntry h.entryId bumpBoth).findEntry h.entryId = some d2 ∧
            d2.op.schema = some sch2 ∧ sch2.aliasKind = s0.aliasKind) ∧
      (schema'.isDefaultAliasAnalysisKind = false → s0.isDefaultAliasAnalysisKind = true →
        ∃ s2 evs, s.registerDef schema' = .ok (s2, h, evs) ∧
          ∃ d2 sch2, s2.findEntry h.entryId = some d2 ∧
            d2.op.schema = some sch2 ∧ sch2.aliasKind = schema'.aliasKind) ∧
      (schema'.isDefaultAliasAnalysisKind = false → s0.isDefaultAliasAnalysisKind = false →
        s0.aliasKind = schema'.aliasKind →
        ∃ evs, s.registerDef schema' = .ok (s.updateEntry h.entryId bumpBoth, h, evs)) ∧
      (schema'.isDefaultAliasAnalysisKind = false → s0.isDefaultAliasAnalysisKind = false →
        s0.aliasKind ≠ schema'.aliasKind →
        s.registerDef schema'
          = .error (.aliasAnalysisKindMismatch s0.aliasKind schema'.aliasKind)) := by
  intro s h d s0 schema' hfs hfe hsch hstq
  obtain ⟨hdm, hdid⟩ := findEntry_some hfe
  have heval := findOrRegisterWithSchema_eval hfs hfe hsch hstq
  refine ⟨?_, ?_, ?_, ?_⟩
  · intro hnd hsd
    have hres : s.findOrRegisterWithSchema schema' = .ok (s, h) := by
      rw [heval]
      simp [hnd]
    have hff := findEntry_updateEntry s h.entryId bumpBoth (fun x => rfl)
    rw [hfe] at hff
    simp only [Option.map_some', if_pos hdid] at hff
    refine ⟨_, registerDef_eval hres hfe hdid, bumpBoth d, s0, hff, ?_, rfl⟩
    show (bumpBoth d).op.schema = some s0
    exact hsch
  · intro hnd hsd
    have hres : s.findOrRegisterWithSchema schema'
        = .ok (s.updateEntry h.entryId
            (fun e => { e with op := e.op.updateSchemaAliasAnalysis schema'.aliasKind }), h) := by
      rw [heval]
      simp [hnd, hsd]
    have hff1 := findEntry_updateEntry s h.entryId
      (fun e => { e with op := e.op.updateSchemaAliasAnalysis schema'.aliasKind }) (fun x => rfl)
    rw [hfe] at hff1
    simp only [Option.map_some', if_pos hdid] at hff1
    have hAid : ({ d with op := d.op.updateSchemaAliasAnalysis schema'.aliasKind }
        : OperatorDef).id = h.entryId := hdid
    have hff2 := findEntry_updateEntry
      (s.updateEntry h.entryId
        (fun e => { e with op := e.op.updateSchemaAliasAnalysis schema'.aliasKind }))
      h.entryId bumpBoth (fun x => rfl)
    rw [hff1] at hff2
    simp only [Option.map_some', if_pos hAid] at hff2
    refine ⟨_, _, registerDef_eval hres hff1 hAid,
      bumpBoth { d with op := d.op.updateSchemaAliasAnalysis schema'.aliasKind },
      { s0 with aliasKind := schema'.aliasKind }, hff2, ?_, rfl⟩
    show (d.op.updateSchemaAliasAnalysis schema'.aliasKind).schema
      = some { s0 with aliasKind := schema'.aliasKind }
    simp [OperatorEntry.updateSchemaAliasAnalysis, hsch]
  · intro hnd hsd heqk
    have hres : s.findOrRegisterWithSchema schema' = .ok (s, h) := by
      rw [heval]
      simp [hnd, hsd, heqk]
    exact ⟨_, registerDef_eval hres hfe hdid⟩
  · intro hnd hsd hneq
    have hres : s.findOrRegisterWithSchema schema'
        = .error (.aliasAnalysisKindMismatch s0.aliasKind schema'.aliasKind) := by
      rw [heval]
      simp [hnd, hsd, hneq]
    simp only [Dispatcher.registerDef, hres]

def schAddDefault : FunctionSchema :=
  { operator_name := nmAdd, core := 1, aliasKind := .defaultKind }

theorem C5_witness :
    dispAdd.findSchema schAddDefault.operator_name = some hAdd ∧
    dispAdd.findEntry hAdd.entryId = some (bumpBoth (freshSchemaEntry schAdd 0)) ∧
    (bumpBoth (freshSchemaEntry schAdd 0)).op.schema = some schAdd ∧
    FunctionSchema.structEq schAdd schAddDefault = true ∧
    schAddDefault.isDefaultAliasAnalysisKind = true ∧
    schAdd.isDefaultAliasAnalysisKind = false ∧
    (∃ evs, dispAdd.registerDef schAddDefault
        = .ok (dispAdd.updateEntry hAdd.entryId bumpBoth, hAdd, evs) ∧
      ∃ d2 sch2, (dispAdd.updateEntry hAdd.entryId bumpBoth).findEntry hAdd.entryId = some d2 ∧
        d2.op.schema = some sch2 ∧ sch2.aliasKind = schAdd.aliasKind) :=
  ⟨by decide, by decide, by decide, by decide, by decide, by decide,
   (C5_alias_resolution dispAdd hAdd (bumpBoth (freshSchemaEntry schAdd 0)) schAdd schAddDefault
     (by decide) (by decide) (by decide) (by decide)).1 (by decide) (by decide)⟩

/-- C6: listener notifications fire exactly at the strong refcount boundary
transitions, in the stated order. A successful registerDef emits an event
exactly when the strong refcount of the target entry became 1 (the 0 to 1
transition); the emitted event is the registered event for the returned
handle and is delivered in the final state, in which the entry is fully
inserted and visible (findSchema on the registered name already resolves to
the handle). A successful deregisterDef_ emits an event exactly when the
strong refcount reached 0 (the predecrement count was 1); the emitted event
is the deregistered event and is delivered in the decremented but not yet
erased state, in which the entry is still resolvable. -/
theorem C6_listener_boundary :
    (∀ (s : Dispatcher) (schema : FunctionSchema) (s2 : Dispatcher) (op : OperatorHandle)
        (evs : List (RegEvent × Dispatcher)),
      s.registerDef schema = .ok (s2, op, evs) →
      ((∃ d, s2.findEntry op.entryId = some d ∧ ((evs ≠ []) ↔ d.refcount = 1)) ∧
       ∀ pr ∈ evs, pr.1 = RegEvent.registered op ∧ pr.2 = s2 ∧
         pr.2.findSchema schema.operator_name = some op))
    ∧
    (∀ (s : Dispatcher) (op : OperatorHandle) (n : OperatorName) (s2 : Dispatcher)
        (evs : List (RegEvent × Dispatcher)),
      s.deregisterDef op n = .ok (s2, evs) →
      ((∃ d, s.findEntry op.entryId = some d ∧ ((evs ≠ []) ↔ d.refcount - 1 = 0)) ∧
       ∀ pr ∈ evs, pr.1 = RegEvent.deregistered op ∧
         pr.2 = s.updateEntry op.entryId dropBoth ∧
         (∃ d1, pr.2.findEntry op.entryId = some d1))) := by
  constructor
  · intro s schema s2 op evs hreg
    obtain ⟨s1, hfr, hs2, d, hfe, hevs⟩ := registerDef_ok hreg
    constructor
    · refine ⟨d, hfe, ?_⟩
      rw [hevs]
      by_cases h1 : d.refcount = 1 <;> simp [h1]
    · intro pr hpr
      rw [hevs] at hpr
      by_cases h1 : d.refcount = 1
      · rw [if_pos h1] at hpr
        simp only [List.mem_singleton] at hpr
        subst hpr
        refine ⟨rfl, rfl, ?_⟩
        rcases findOrRegisterWithSchema_ok_cases hfr with
          ⟨hfs, f, _, _, _, _, hops1, htbl1, _⟩ | ⟨hfs, hopEq, hops1, htbl1, _⟩
        · have htb : s2.operatorLookupTable = s.operatorLookupTable := by
            rw [hs2]
            exact htbl1
          show s2.findSchema schema.operator_name = some op
          simp only [Dispatcher.findSchema] at hfs ⊢
          rw [htb]
          exact hfs
        · have hfnone : s.operatorLookupTable.find?
              (fun p => decide (p.1 = schema.operator_name)) = none := by
            simpa [Dispatcher.findSchema, Option.map_eq_none'] using hfs
          have htb : s2.operatorLookupTable
              = s.operatorLookupTable ++ [(schema.operator_name, s.nextEntryId)] := by
            rw [hs2]
            exact htbl1
          show s2.findSchema schema.operator_name = some op
          simp only [Dispatcher.findSchema, htb, List.find?_append, hfnone]
          simp [hopEq]
      · rw [if_neg h1] at hpr
        cases hpr
  · intro s op n s2 evs hder
    obtain ⟨d, hfe, hdn, hrc, hwrc, hevs, hs2eq⟩ := deregisterDef_ok hder
    constructor
    · refine ⟨d, hfe, ?_⟩
      rw [hevs]
      by_cases h1 : d.refcount - 1 = 0 <;> simp [h1]
    · intro pr hpr
      rw [hevs] at hpr
      by_cases h1 : d.refcount - 1 = 0
      · rw [if_pos h1] at hpr
        simp only [List.mem_singleton] at hpr
        subst hpr
        refine ⟨rfl, rfl, ?_⟩
        obtain ⟨hdm, hdid⟩ := findEntry_some hfe
        have hff := findEntry_updateEntry s op.entryId dropBoth (fun x => rfl)
        rw [hfe] at hff
        simp only [Option.map_some', if_pos hdid] at hff
        exact ⟨dropBoth d, hff⟩
      · rw [if_neg h1] at hpr
        cases hpr

theorem C6_witness :
    Dispatcher.init.registerDef schAdd
      = .ok (dispAdd, hAdd, [(RegEvent.registered hAdd, dispAdd)]) ∧
    ((∃ d, dispAdd.findEntry hAdd.entryId = some d ∧
        ((([(RegEvent.registered hAdd, dispAdd)] : List (RegEvent × Dispatcher)) ≠ [])
          ↔ d.refcount = 1)) ∧
      ∀ pr ∈ [(RegEvent.registered hAdd, dispAdd)],
        pr.1 = RegEvent.registered hAdd ∧ pr.2 = dispAdd ∧
          pr.2.findSchema schAdd.operator_name = some hAdd) :=
  ⟨rfl, C6_listener_boundary.1 Dispatcher.init schAdd dispAdd hAdd
    [(RegEvent.registered hAdd, dispAdd)] rfl⟩

/-- The entry created by a lone implementation registration of mul. -/
def entryMulImpl : OperatorDef :=
  { id := 0,
    op := { opName := nmMul, schema := none,
            kernels := [(0, none, kCpu)], nextKernelToken := 1 },
    refcount := 0, weak_refcount := 1 }

/-- The dispatcher right after a lone implementation registration of mul. -/
def dispMulImpl : Dispatcher :=
  { operators := [entryMulImpl],
    operatorLookupTable := [(nmMul, 0)],
    backendFallbackKernels := [],
    backendsWithoutFallthrough := DispatchKeySet.FULL,
    listeners := [],
    nextEntryId := 1 }

/-- C8: an operator entry created only by implementation registrations has
strong refcount 0 and no live registered event is ever fired for it, since
registerImpl emits no listener events at all (live registered events fire
only on the strong refcount 0 to 1 transition inside registerDef); yet
addRegistrationListener still replays an on registered event for that entry
to the newly added listener. -/
theorem C8_impl_only_entries_replayed :
    (∀ (s : Dispatcher) (n : OperatorName) (key : Option DispatchKey) (kf : KernelFunction)
        (s2 : Dispatcher) (op : OperatorHandle) (tok : Nat)
        (evs : List (RegEvent × Dispatcher)),
      s.registerImpl n key kf = .ok (s2, op, tok, evs) → evs = [])
    ∧ ((runCmds [Cmd.regImpl nmMul none kCpu]).disp.findEntry 0 = some entryMulImpl ∧
       entryMulImpl.refcount = 0) ∧
    ((runCmds [Cmd.regImpl nmMul none kCpu]).disp.addRegistrationListener 5).2
      = [{ entryId := 0 }] := by
  refine ⟨?_, ⟨?_, ?_⟩, ?_⟩
  · intro s n key kf s2 op tok evs hr
    exact (registerImpl_ok hr).1
  · decide
  · decide
  · decide

theorem C8_witness :
    Dispatcher.init.registerImpl nmMul none kCpu
      = .ok (dispMulImpl, { entryId := 0 }, 0, ([] : List (RegEvent × Dispatcher))) ∧
    ([] : List (RegEvent × Dispatcher)) = [] :=
  ⟨rfl,
   C8_impl_only_entries_replayed.1 Dispatcher.init nmMul none kCpu dispMulImpl
     { entryId := 0 } 0 [] rfl⟩

/-- C9: a never registered OperatorName is not found (on the fresh registry
findSchema returns none for every name, and for reachable states a name
whose lookup is none gets a fresh entry); after a definition registration
for such a name, findSchema returns the new handle and the entry carries
the registered signature; findSchemaOrThrow returns the handle exactly when
findSchema finds one, and fails with the not found error when the name is
absent. -/
theorem C9_find_spec :
    (∀ n : OperatorName, Dispatcher.init.findSchema n = none) ∧
    (∀ (cs : List Cmd) (schema : FunctionSchema) (s2 : Dispatcher) (h : OperatorHandle)
        (evs : List (RegEvent × Dispatcher)),
      (runCmds cs).disp.findSchema schema.operator_name = none →
      (runCmds cs).disp.registerDef schema = .ok (s2, h, evs) →
      s2.findSchema schema.operator_name = some h ∧
      ∃ d, s2.findEntry h.entryId = some d ∧ d.op.schema = some schema) ∧
    (∀ (s : Dispatcher) (n overload : String),
      (∀ h, s.findSchema { name := n, overload_name := overload } = some h →
        s.findSchemaOrThrow n overload = .ok h) ∧
      (s.findSchema { name := n, overload_name := overload } = none →
        s.findSchemaOrThrow n overload
          = .error (.notFoundInSchemaLookup { name := n, overload_name := overload }))) := by
  refine ⟨?_, ?_, ?_⟩
  · intro n
    rfl
  · intro cs schema s2 h evs hnone hreg
    obtain ⟨s1, hfr, hs2, d, hfe, hevs⟩ := registerDef_ok hreg
    rcases findOrRegisterWithSchema_ok_cases hfr with
      ⟨hfs, _⟩ | ⟨hfs, hopEq, hops1, htbl1, hnext1⟩
    · rw [hfs] at hnone
      cases hnone
    · have hhe : h.entryId = (runCmds cs).disp.nextEntryId := by
        rw [hopEq]
      have hw := inv_run cs
      constructor
      · have hfnone : (runCmds cs).disp.operatorLookupTable.find?
            (fun p => decide (p.1 = schema.operator_name)) = none := by
          simpa [Dispatcher.findSchema, Option.map_eq_none'] using hnone
        have htb : s2.operatorLookupTable
            = (runCmds cs).disp.operatorLookupTable
              ++ [(schema.operator_name, (runCmds cs).disp.nextEntryId)] := by
          rw [hs2]
          exact htbl1
        show s2.findSchema schema.operator_name = some h
        simp only [Dispatcher.findSchema, htb, List.find?_append, hfnone]
        simp [hopEq]
      · have hid0 : (runCmds cs).disp.operators.find?
            (fun x => decide (x.id = h.entryId)) = none := by
          rw [List.find?_eq_none]
          intro x hx
          have := hw.idsLt x hx
          simp only [decide_eq_true_eq]
          omega
        have hfe1 : s1.findEntry h.entryId
            = some (freshSchemaEntry schema (runCmds cs).disp.nextEntryId) := by
          show s1.operators.find? (fun x => decide (x.id = h.entryId)) = _
          rw [hops1, List.find?_append, hid0]
          simp [freshSchemaEntry, hhe]
        have hff := findEntry_updateEntry s1 h.entryId bumpBoth (fun x => rfl)
        rw [hfe1] at hff
        simp only [Option.map_some'] at hff
        rw [if_pos (show (freshSchemaEntry schema (runCmds cs).disp.nextEntryId).id
          = h.entryId by rw [hhe]; rfl)] at hff
        refine ⟨bumpBoth (freshSchemaEntry schema (runCmds cs).disp.nextEntryId), ?_, rfl⟩
        rw [hs2]
        exact hff
  · intro s n overload
    constructor
    · intro h hh
      simp [Dispatcher.findSchemaOrThrow, hh]
    · intro hn
      simp [Dispatcher.findSchemaOrThrow, hn]

theorem C9_witness :
    (runCmds []).disp.findSchema schAdd.operator_name = none ∧
    (runCmds []).disp.registerDef schAdd
      = .ok (dispAdd, hAdd, [(RegEvent.registered hAdd, dispAdd)]) ∧
    (dispAdd.findSchema schAdd.operator_name = some hAdd ∧
      ∃ d, dispAdd.findEntry hAdd.entryId = some d ∧ d.op.schema = some schAdd) :=
  ⟨by decide, rfl,
   (C9_find_spec.2.1 [] schAdd dispAdd hAdd [(RegEvent.registered hAdd, dispAdd)]
     (by decide) rfl)⟩

/-- C2: in every reachable state, the weak refcount of an entry referenced
by a live handle equals the number of currently live handles (definition
and implementation registrations together) for that entry, and disposing
the handle erases the entry from the operator list and makes find on its
name return not found exactly when the weak refcount reaches 0 on that
deregistration, that is exactly when the disposed handle was the last one
(weak refcount 1). Whenever the weak refcount stays positive (a proper
subset of the handles was disposed), the entry stays in the list and find
still returns a handle. -/
theorem C2_erase_iff_weak_zero :
    ∀ (cs : List Cmd) (lh : LiveHandle),
      lh ∈ (runCmds cs).live →
      ∀ d, (runCmds cs).disp.findEntry lh.entryId = some d →
        d.weak_refcount = handleCount (runCmds cs).live lh.entryId ∧
        ((stepCmd (runCmds cs) (Cmd.dispose lh.hid)).disp.findEntry lh.entryId = none
          ↔ d.weak_refcount = 1) ∧
        ((stepCmd (runCmds cs) (Cmd.dispose lh.hid)).disp.findSchema lh.opName = none
          ↔ d.weak_refcount = 1) := by
  intro cs lh hmem d hfe
  have hw := inv_run cs
  obtain ⟨hdm, hdid⟩ := findEntry_some hfe
  obtain ⟨d0, hd0, hd0id, hd0n⟩ := hw.liveValid lh hmem
  have hded0 : d = d0 := eq_of_ids_nodup hw.idsNodup hdm hd0 (by rw [hdid, hd0id])
  have hdn : d.op.opName = lh.opName := by
    rw [hded0]
    exact hd0n
  have hwc : d.weak_refcount = handleCount (runCmds cs).live lh.entryId := by
    have h1 := hw.strong d hdm
    have h2 := hw.weak d hdm
    have h3 := handleCount_split (runCmds cs).live d.id
    rw [← hdid]
    omega
  have hwpos : 0 < d.weak_refcount := by
    rw [hwc]
    exact one_le_handleCount _ lh _ hmem rfl
  have hfind := find?_hid_eq hmem hw.hidsNodup
  have hstep : stepCmd (runCmds cs) (Cmd.dispose lh.hid) = disposeLive (runCmds cs) lh := by
    simp [stepCmd, hfind]
  have hsome : ((runCmds cs).disp.operatorLookupTable.find?
      (fun p => decide (p.1 = lh.opName))).isSome = true := by
    rw [List.find?_isSome]
    refine ⟨keyOf d0, ?_, ?_⟩
    · rw [hw.tbl]
      exact List.mem_map_of_mem _ hd0
    · simp [keyOf, hd0n]
  have hiso : ∀ (o : Option (OperatorName × Nat)) (f : OperatorName × Nat → OperatorHandle),
      (o.map f).isSome = o.isSome := by
    intro o f
    cases o <;> rfl
  have hmain :
      (d.weak_refcount - 1 = 0 →
        (disposeLive (runCmds cs) lh).disp.findEntry lh.entryId = none ∧
        (disposeLive (runCmds cs) lh).disp.findSchema lh.opName = none) ∧
      (¬ d.weak_refcount - 1 = 0 →
        ((disposeLive (runCmds cs) lh).disp.findEntry lh.entryId).isSome = true ∧
        ((disposeLive (runCmds cs) lh).disp.findSchema lh.opName).isSome = true) := by
    cases hkind : lh.kind with
    | defKind =>
      have hdef : lh.isDef = true := by simp [LiveHandle.isDef, hkind]
      have hrcpos : d.refcount ≠ 0 := by
        have h1 := hw.strong d hdm
        have hcnt := one_le_defCount (runCmds cs).live lh lh.entryId hmem rfl hdef
        rw [← hdid] at hcnt
        omega
      have hfe2 : (runCmds cs).disp.findEntry
          (OperatorHandle.mk lh.entryId).entryId = some d := hfe
      have hde := deregisterDef_eval hfe2 hdn hrcpos (by omega)
      dsimp only at hde
      have hdl : (disposeLive (runCmds cs) lh).disp
          = (if d.weak_refcount - 1 = 0 then
              ((runCmds cs).disp.updateEntry lh.entryId dropBoth).eraseEntry
                lh.entryId lh.opName
             else (runCmds cs).disp.updateEntry lh.entryId dropBoth) := by
        simp [disposeLive, hkind, hde, Except.map]
      constructor
      · intro hw0
        rw [hdl, if_pos hw0]
        exact ⟨findEntry_eraseEntry _ _ _, findSchema_eraseEntry _ _ _⟩
      · intro hw0
        rw [hdl, if_neg hw0]
        constructor
        · have hff := findEntry_updateEntry (runCmds cs).disp lh.entryId dropBoth
            (fun x => rfl)
          rw [hfe] at hff
          simp only [Option.map_some', if_pos hdid] at hff
          rw [hff]
          rfl
        · have hsame : ((runCmds cs).disp.updateEntry lh.entryId dropBoth).findSchema lh.opName
              = (runCmds cs).disp.findSchema lh.opName := rfl
          rw [hsame]
          simp only [Dispatcher.findSchema, hiso]
          exact hsome
    | implKind key token =>
      have hff1 := findEntry_updateEntry (runCmds cs).disp lh.entryId
        (fun x => { x with op := x.op.deregisterKernel key token }) (fun x => rfl)
      rw [hfe] at hff1
      simp only [Option.map_some', if_pos hdid] at hff1
      have hname2 : ({ d with op := d.op.deregisterKernel key token }
          : OperatorDef).op.opName = lh.opName := hdn
      have hwne2 : ({ d with op := d.op.deregisterKernel key token }
          : OperatorDef).weak_refcount ≠ 0 := by
        show d.weak_refcount ≠ 0
        omega
      have hff1b : ((runCmds cs).disp.updateEntry lh.entryId
          (fun x => { x with op := x.op.deregisterKernel key token })).findEntry
          (OperatorHandle.mk lh.entryId).entryId
          = some { d with op := d.op.deregisterKernel key token } := hff1
      have hde := deregisterImpl_eval hff1b hname2 hwne2
      dsimp only at hde
      have hdl : (disposeLive (runCmds cs) lh).disp
          = (if d.weak_refcount - 1 = 0 then
              (((runCmds cs).disp.updateEntry lh.entryId
                  (fun x => { x with op := x.op.deregisterKernel key token })).updateEntry
                  lh.entryId
                  (fun e => { e with weak_refcount := e.weak_refcount - 1 })).eraseEntry
                  lh.entryId lh.opName
             else ((runCmds cs).disp.updateEntry lh.entryId
                  (fun x => { x with op := x.op.deregisterKernel key token })).updateEntry
                  lh.entryId (fun e => { e with weak_refcount := e.weak_refcount - 1 })) := by
        simp [disposeLive, hkind, Dispatcher.disposeImplHandle, hfe, hde]
      constructor
      · intro hw0
        rw [hdl, if_pos hw0]
        exact ⟨findEntry_eraseEntry _ _ _, findSchema_eraseEntry _ _ _⟩
      · intro hw0
        rw [hdl, if_neg hw0]
        constructor
        · have hff2 := findEntry_updateEntry
            ((runCmds cs).disp.updateEntry lh.entryId
              (fun x => { x with op := x.op.deregisterKernel key token }))
            lh.entryId (fun e => { e with weak_refcount := e.weak_refcount - 1 })
            (fun x => rfl)
          have hff1c : ((runCmds cs).disp.updateEntry lh.entryId
              (fun x => { x with op := x.op.deregisterKernel key token })).findEntry
              lh.entryId = some { d with op := d.op.deregisterKernel key token } := hff1
          rw [hff1c] at hff2
          simp only [Option.map_some'] at hff2
          rw [if_pos (show ({ d with op := d.op.deregisterKernel key token }
            : OperatorDef).id = lh.entryId from hdid)] at hff2
          rw [hff2]
          rfl
        · have hsame : (((runCmds cs).disp.updateEntry lh.entryId
              (fun x => { x with op := x.op.deregisterKernel key token })).updateEntry
              lh.entryId
              (fun e => { e with weak_refcount := e.weak_refcount - 1 })).findSchema lh.opName
              = (runCmds cs).disp.findSchema lh.opName := rfl
          rw [hsame]
          simp only [Dispatcher.findSchema, hiso]
          exact hsome
  refine ⟨hwc, ?_, ?_⟩
  · rw [hstep]
    by_cases hw0 : d.weak_refcount - 1 = 0
    · have hres := (hmain.1 hw0).1
      constructor
      · intro _
        omega
      · intro _
        exact hres
    · have hres := (hmain.2 hw0).1
      constructor
      · intro hn
        rw [hn] at hres
        simp at hres
      · intro h1
        omega
  · rw [hstep]
    by_cases hw0 : d.weak_refcount - 1 = 0
    · have hres := (hmain.1 hw0).2
      constructor
      · intro _
        omega
      · intro _
        exact hres
    · have hres := (hmain.2 hw0).2
      constructor
      · intro hn
        rw [hn] at hres
        simp at hres
      · intro h1
        omega

theorem C2_witness :
    ({ hid := 1, entryId := 0, opName := nmAdd, kind := HandleKind.implKind none 0 }
        : LiveHandle)
      ∈ (runCmds [Cmd.regDef schAdd, Cmd.regImpl nmAdd none kCpu]).live ∧
    (runCmds [Cmd.regDef schAdd, Cmd.regImpl nmAdd none kCpu]).disp.findEntry 0
      = some { id := 0,
               op := { opName := nmAdd, schema := some schAdd,
                       kernels := [(0, none, kCpu)], nextKernelToken := 1 },
               refcount := 1, weak_refcount := 2 } ∧
    (({ id := 0,
        op := { opName := nmAdd, schema := some schAdd,
                kernels := [(0, none, kCpu)], nextKernelToken := 1 },
        refcount := 1, weak_refcount := 2 } : OperatorDef).weak_refcount
      = handleCount (runCmds [Cmd.regDef schAdd, Cmd.regImpl nmAdd none kCpu]).live 0 ∧
     ((stepCmd (runCmds [Cmd.regDef schAdd, Cmd.regImpl nmAdd none kCpu])
        (Cmd.dispose 1)).disp.findEntry 0 = none ↔ (2 : Nat) = 1) ∧
     ((stepCmd (runCmds [Cmd.regDef schAdd, Cmd.regImpl nmAdd none kCpu])
        (Cmd.dispose 1)).disp.findSchema nmAdd = none ↔ (2 : Nat) = 1)) :=
  ⟨by decide, by decide,
   C2_erase_iff_weak_zero [Cmd.regDef schAdd, Cmd.regImpl nmAdd none kCpu]
     { hid := 1, entryId := 0, opName := nmAdd, kind := HandleKind.implKind none 0 }
     (by decide) _ (by decide)⟩

end PytorchDispatch
